import Mathlib

/-!
Verification of `langchain/automaton/chat_agent.py`: the action codec
(`ActionEncoder.decode` / `ActionEncoder.encode_as_str`), the prompt
projection (`prompt_generator`) and the agent loop (`ChatAgent.run`).

Text is modelled as `List Char`.  Python literal values (the universe that
`ast.literal_eval` returns for the wire format) are modelled by `PyLit`.
-/

/-- Python literal values: `None`, booleans, integers, strings, lists and
dicts (insertion-ordered association lists, as Python dict literals build
them). -/
inductive PyLit where
  | none : PyLit
  | bool : Bool → PyLit
  | int : Int → PyLit
  | str : List Char → PyLit
  | list : List PyLit → PyLit
  | dict : List (PyLit × PyLit) → PyLit

/-- Python truthiness of a literal value, as used by the `or` in
`data["action_input"] or \x7b\x7d`. -/
def PyLit.truthy : PyLit → Bool
  | .none => false
  | .bool b => b
  | .int n => n != 0
  | .str s => !s.isEmpty
  | .list l => !l.isEmpty
  | .dict kvs => !kvs.isEmpty

mutual
/-- Python `==` on literal values (structural equality). -/
def PyLit.beq : PyLit → PyLit → Bool
  | .none, .none => true
  | .bool a, .bool b => a == b
  | .int a, .int b => a == b
  | .str a, .str b => a == b
  | .list a, .list b => PyLit.beqList a b
  | .dict a, .dict b => PyLit.beqPairs a b
  | _, _ => false

/-- Elementwise Python `==` on lists of literal values. -/
def PyLit.beqList : List PyLit → List PyLit → Bool
  | [], [] => true
  | a :: xs, b :: ys => PyLit.beq a b && PyLit.beqList xs ys
  | _, _ => false

/-- Elementwise Python `==` on key/value pair lists. -/
def PyLit.beqPairs : List (PyLit × PyLit) → List (PyLit × PyLit) → Bool
  | [], [] => true
  | (k1, v1) :: xs, (k2, v2) :: ys =>
    PyLit.beq k1 k2 && PyLit.beq v1 v2 && PyLit.beqPairs xs ys
  | _, _ => false
end

/-- Character constants used by the wire format (single quote, double
quote, backslash, braces, whitespace). -/
def sqc : Char := Char.ofNat 39

/-- Double-quote character. -/
def dqc : Char := Char.ofNat 34

/-- Backslash character. -/
def bsl : Char := Char.ofNat 92

/-- Left brace character. -/
def lbr : Char := Char.ofNat 123

/-- Right brace character. -/
def rbr : Char := Char.ofNat 125

/-- Newline character. -/
def nlc : Char := Char.ofNat 10

/-- Tab character. -/
def tbc : Char := Char.ofNat 9

/-- Carriage-return character. -/
def crc : Char := Char.ofNat 13

/-- Whitespace recognised between Python literal tokens. -/
def isWsChar (c : Char) : Bool := c = ' ' || c = nlc || c = tbc || c = crc

/-- Drop leading whitespace. -/
def skipWs : List Char → List Char
  | [] => []
  | c :: cs => if isWsChar c then skipWs cs else c :: cs

/-- Resolve a backslash escape inside a Python string literal; `Option.none`
means the escape is unknown and the backslash is kept verbatim. -/
def unescape (e : Char) : Option Char :=
  if e = bsl then some bsl
  else if e = sqc then some sqc
  else if e = dqc then some dqc
  else if e = 'n' then some nlc
  else if e = 't' then some tbc
  else if e = 'r' then some crc
  else Option.none

/-- Parse the body of a quoted Python string literal (opening quote already
consumed): read characters up to the closing quote `q`, resolving backslash
escapes; a raw newline inside the literal is a syntax error. -/
def parseStringBody (q : Char) : List Char → Option (List Char × List Char)
  | [] => Option.none
  | c :: cs =>
    if c = q then some ([], cs)
    else if c = bsl then
      match cs with
      | [] => Option.none
      | e :: cs2 =>
        match unescape e with
        | some r =>
          match parseStringBody q cs2 with
          | some (body, rest) => some (r :: body, rest)
          | Option.none => Option.none
        | Option.none =>
          match parseStringBody q cs2 with
          | some (body, rest) => some (bsl :: e :: body, rest)
          | Option.none => Option.none
    else if c = nlc then Option.none
    else
      match parseStringBody q cs with
      | some (body, rest) => some (c :: body, rest)
      | Option.none => Option.none

/-- Split off the longest prefix of decimal digits. -/
def takeDigits : List Char → (List Char × List Char)
  | [] => ([], [])
  | c :: cs =>
    if c.isDigit then
      match takeDigits cs with
      | (ds, rest) => (c :: ds, rest)
    else ([], c :: cs)

/-- Value of a list of decimal digit characters, most significant first. -/
def digitsToNat (ds : List Char) : Nat :=
  ds.foldl (fun acc c => acc * 10 + (c.toNat - 48)) 0

/-- Parse an unsigned decimal integer literal; Python rejects leading
zeros (`01` is a syntax error, `0` is fine). -/
def parseNatPart (cs : List Char) : Option (Nat × List Char) :=
  match takeDigits cs with
  | ([], _) => Option.none
  | (d :: ds, rest) =>
    if d = '0' && !ds.isEmpty then Option.none
    else some (digitsToNat (d :: ds), rest)

/-- Parse a possibly negated decimal integer literal. -/
def parseIntLit (cs : List Char) : Option (Int × List Char) :=
  match cs with
  | '-' :: cs2 =>
    match parseNatPart cs2 with
    | some (n, rest) => some (-(n : Int), rest)
    | Option.none => Option.none
  | _ =>
    match parseNatPart cs with
    | some (n, rest) => some ((n : Int), rest)
    | Option.none => Option.none

/-- Insert a key/value pair into a dict under construction, with Python
semantics: a duplicate key keeps its original position but takes the new
value. -/
def dictInsert : List (PyLit × PyLit) → PyLit → PyLit → List (PyLit × PyLit)
  | [], k, v => [(k, v)]
  | (k0, v0) :: rest, k, v =>
    if PyLit.beq k0 k then (k0, v) :: rest
    else (k0, v0) :: dictInsert rest k v

mutual
/-- Fuelled recursive-descent parser for the Python literal grammar used by
the wire format: quoted strings, integers, `True`/`False`/`None`, lists and
dicts (with optional trailing comma), with whitespace between tokens. -/
def parseValueF : Nat → List Char → Option (PyLit × List Char)
  | 0, _ => Option.none
  | fuel + 1, cs =>
    match cs with
    | [] => Option.none
    | c :: rest =>
      if c = sqc then
        match parseStringBody sqc rest with
        | some (s, rest2) => some (.str s, rest2)
        | Option.none => Option.none
      else if c = dqc then
        match parseStringBody dqc rest with
        | some (s, rest2) => some (.str s, rest2)
        | Option.none => Option.none
      else if c = lbr then
        match skipWs rest with
        | c2 :: rest2 =>
          if c2 = rbr then some (.dict [], rest2)
          else parseDictItems fuel [] (c2 :: rest2)
        | [] => Option.none
      else if c = '[' then
        match skipWs rest with
        | c2 :: rest2 =>
          if c2 = ']' then some (.list [], rest2)
          else parseListItems fuel [] (c2 :: rest2)
        | [] => Option.none
      else if c = '-' || c.isDigit then
        match parseIntLit (c :: rest) with
        | some (n, rest2) => some (.int n, rest2)
        | Option.none => Option.none
      else
        match cs with
        | 'N' :: 'o' :: 'n' :: 'e' :: restk => some (.none, restk)
        | 'T' :: 'r' :: 'u' :: 'e' :: restk => some (.bool true, restk)
        | 'F' :: 'a' :: 'l' :: 's' :: 'e' :: restk => some (.bool false, restk)
        | _ => Option.none

/-- Parse the remaining `key: value` items of a dict literal (opening brace
consumed, at least one item present). -/
def parseDictItems : Nat → List (PyLit × PyLit) → List Char → Option (PyLit × List Char)
  | 0, _, _ => Option.none
  | fuel + 1, acc, cs =>
    match parseValueF fuel (skipWs cs) with
    | Option.none => Option.none
    | some (k, cs1) =>
      match skipWs cs1 with
      | c :: cs2 =>
        if c = ':' then
          match parseValueF fuel (skipWs cs2) with
          | Option.none => Option.none
          | some (v, cs3) =>
            match skipWs cs3 with
            | c2 :: cs4 =>
              if c2 = rbr then some (.dict (dictInsert acc k v), cs4)
              else if c2 = ',' then
                match skipWs cs4 with
                | c3 :: cs5 =>
                  if c3 = rbr then some (.dict (dictInsert acc k v), cs5)
                  else parseDictItems fuel (dictInsert acc k v) (c3 :: cs5)
                | [] => Option.none
              else Option.none
            | [] => Option.none
        else Option.none
      | [] => Option.none

/-- Parse the remaining items of a list literal (opening bracket consumed,
at least one item present). -/
def parseListItems : Nat → List PyLit → List Char → Option (PyLit × List Char)
  | 0, _, _ => Option.none
  | fuel + 1, acc, cs =>
    match parseValueF fuel (skipWs cs) with
    | Option.none => Option.none
    | some (v, cs1) =>
      match skipWs cs1 with
      | c :: cs2 =>
        if c = ']' then some (.list (acc ++ [v]), cs2)
        else if c = ',' then
          match skipWs cs2 with
          | c2 :: cs3 =>
            if c2 = ']' then some (.list (acc ++ [v]), cs3)
            else parseListItems fuel (acc ++ [v]) (c2 :: cs3)
          | [] => Option.none
        else Option.none
      | [] => Option.none
end

/-- Errors surfaced by `ActionEncoder.decode`: a literal that does not
parse (`ValueError`/`SyntaxError` from `ast.literal_eval`), a missing dict
key (`KeyError`), or subscripting a non-dict (`TypeError`). -/
inductive PyErr where
  | malformed : PyErr
  | keyError : List Char → PyErr
  | typeError : PyErr
  deriving DecidableEq

/-- Embedding of `ast.literal_eval` on the captured action blob: parse a
single literal value, requiring the whole blob (up to surrounding
whitespace) to be consumed. -/
def literal_eval (blob : List Char) : Except PyErr PyLit :=
  match parseValueF (blob.length + 1) (skipWs blob) with
  | Option.none => .error .malformed
  | some (v, rest) =>
    if (skipWs rest).isEmpty then .ok v else .error .malformed

/-- Return the text before and after the first occurrence of `pat`. -/
def splitFirst (pat : List Char) : List Char → Option (List Char × List Char)
  | [] => if pat.isEmpty then some ([], []) else Option.none
  | c :: cs =>
    if pat.isPrefixOf (c :: cs) then some ([], (c :: cs).drop pat.length)
    else
      match splitFirst pat cs with
      | some (pre, post) => some (c :: pre, post)
      | Option.none => Option.none

/-- Opening delimiter of the wire format. -/
def openTag : List Char := "<action>".data

/-- Closing delimiter of the wire format. -/
def closeTag : List Char := "</action>".data

/-- Embedding of `self.pattern.search(text)` for the regex
`<action>(?P<action_blob>.*?)<\/action>` with `re.DOTALL`: the leftmost
match starts at the first `<action>`, and the non-greedy group ends at the
first `</action>` after it. -/
def findBlob (text : List Char) : Option (List Char) :=
  match splitFirst openTag text with
  | Option.none => Option.none
  | some (_, rest) =>
    match splitFirst closeTag rest with
    | Option.none => Option.none
    | some (blob, _) => some blob

/-- Lookup of a string key in a dict's pair list (Python `d[key]`). -/
def lookupKey : List (PyLit × PyLit) → List Char → Option PyLit
  | [], _ => Option.none
  | (k, v) :: rest, key =>
    if PyLit.beq k (.str key) then some v else lookupKey rest key

/-- Embedding of Python subscription `data[key]` with a string key:
`KeyError` when the key is absent, `TypeError` when `data` is not a dict. -/
def getItem : PyLit → List Char → Except PyErr PyLit
  | .dict kvs, key =>
    match lookupKey kvs key with
    | some v => .ok v
    | Option.none => .error (.keyError key)
  | _, _ => .error .typeError

/-- Characters of the special-cased action name `"Final Answer"`. -/
def faChars : List Char := "Final Answer".data

/-- Python comparison `data["action"] == "Final Answer"`. -/
def isFinalAnswer (v : PyLit) : Bool := PyLit.beq v (.str faChars)

/-- Message roles: embedding of `BaseMessage` as role plus content. -/
structure BMessage where
  role : List Char
  content : List Char
  deriving DecidableEq

/-- Transcript entries (`MessageLike` in `typedefs`): chat messages,
`FunctionCall`, `FunctionResult` and `AgentFinish`. -/
inductive MessageLike where
  | message : BMessage → MessageLike
  | functionCall : PyLit → PyLit → MessageLike
  | functionResult : PyLit → MessageLike
  | agentFinish : PyLit → MessageLike

/-- Check for an `AgentFinish` transcript entry. -/
def MessageLike.isFinish : MessageLike → Bool
  | .agentFinish _ => true
  | _ => false

/-- Key string `action`. -/
def actionKey : List Char := "action".data

/-- Key string `action_input`. -/
def inputKey : List Char := "action_input".data

/-- Dispatch on the parsed action data, as in the body of
`ActionEncoder.decode`: read `data["action"]`; on `"Final Answer"` build
`AgentFinish(result=data["action_input"])`, otherwise build
`FunctionCall(name=data["action"], arguments=data["action_input"] or
empty dict)`. -/
def decodeData (data : PyLit) : Except PyErr MessageLike :=
  match getItem data actionKey with
  | .error e => .error e
  | .ok name =>
    if isFinalAnswer name then
      match getItem data inputKey with
      | .error e => .error e
      | .ok r => .ok (.agentFinish r)
    else
      match getItem data inputKey with
      | .error e => .error e
      | .ok v => .ok (.functionCall name (if v.truthy then v else .dict []))

/-- Embedding of `ActionEncoder.decode`: find the first delimited action
blob (no blob means no action, `Option.none`), run `literal_eval` on it and
dispatch; exceptions raised by the Python code are the `.error` results. -/
def decode (text : List Char) : Except PyErr (Option MessageLike) :=
  match findBlob text with
  | Option.none => .ok Option.none
  | some blob =>
    match literal_eval blob with
    | .error e => .error e
    | .ok data =>
      match decodeData data with
      | .error e => .error e
      | .ok m => .ok (some m)

/-- Digit character for a digit value below ten. -/
def digitChar10 : Nat → Char
  | 0 => '0'
  | 1 => '1'
  | 2 => '2'
  | 3 => '3'
  | 4 => '4'
  | 5 => '5'
  | 6 => '6'
  | 7 => '7'
  | 8 => '8'
  | 9 => '9'
  | _ => '*'

/-- Decimal digits of a positive number, least significant first, extracted
with explicit fuel so that the definition computes by kernel reduction. -/
def natDigitsAux : Nat → Nat → List Char
  | 0, _ => []
  | _, 0 => []
  | fuel + 1, n + 1 => digitChar10 ((n + 1) % 10) :: natDigitsAux fuel ((n + 1) / 10)

/-- Decimal digits of a natural number, most significant first. -/
def natRepr (n : Nat) : List Char :=
  if n = 0 then ['0'] else (natDigitsAux n n).reverse

/-- Python `repr` of an integer. -/
def intRepr (n : Int) : List Char :=
  if n < 0 then '-' :: natRepr n.natAbs else natRepr n.natAbs

/-- Escape one character for a Python string literal quoted with `q`. -/
def escChar (q : Char) (c : Char) : List Char :=
  if c = bsl then [bsl, bsl]
  else if c = q then [bsl, q]
  else if c = nlc then [bsl, 'n']
  else if c = tbc then [bsl, 't']
  else if c = crc then [bsl, 'r']
  else [c]

/-- Escape a whole string body for a Python string literal. -/
def escString (q : Char) : List Char → List Char
  | [] => []
  | c :: cs => escChar q c ++ escString q cs

/-- Quote character Python `repr` picks for a string: single quote, except
double quote when the string contains a single quote and no double quote. -/
def strQuote (s : List Char) : Char :=
  if s.contains sqc && !(s.contains dqc) then dqc else sqc

/-- Python `repr` of a string: single-quoted, except double-quoted when the
string contains a single quote and no double quote. -/
def strRepr (s : List Char) : List Char :=
  strQuote s :: escString (strQuote s) s ++ [strQuote s]

mutual
/-- Python `repr` of a literal value (`str` and `repr` agree on every
non-string literal, dicts and lists included). -/
def pyRepr : PyLit → List Char
  | .none => "None".data
  | .bool true => "True".data
  | .bool false => "False".data
  | .int n => intRepr n
  | .str s => strRepr s
  | .list l => '[' :: reprItems l ++ [']']
  | .dict kvs => lbr :: reprPairs kvs ++ [rbr]

/-- Comma-separated `repr` of list items. -/
def reprItems : List PyLit → List Char
  | [] => []
  | [v] => pyRepr v
  | v :: rest => pyRepr v ++ ',' :: ' ' :: reprItems rest

/-- Comma-separated `repr` of `key: value` dict items. -/
def reprPairs : List (PyLit × PyLit) → List Char
  | [] => []
  | [(k, v)] => pyRepr k ++ ':' :: ' ' :: pyRepr v
  | (k, v) :: rest => pyRepr k ++ ':' :: ' ' :: pyRepr v ++ ',' :: ' ' :: reprPairs rest
end

/-- Python `str` of a literal value: strings yield their characters, every
other literal yields its `repr`; this is the f-string interpolation used by
`encode_as_str`. -/
def pyStr : PyLit → List Char
  | .str s => s
  | v => pyRepr v

/-- Embedding of `ActionEncoder.encode_as_str`: the special case for the
name `"Final Answer"` wraps the stringified arguments in single quotes;
otherwise name and arguments are interpolated into the delimited literal. -/
def encode_as_str (name : PyLit) (arguments : PyLit) : List Char :=
  if isFinalAnswer name then
    ("<action>\x7b\x27action\x27: \x27Final Answer\x27, \x27action_input\x27: \x27".data)
      ++ pyStr arguments ++ ("\x27\x7d</action>".data)
  else
    ("<action>\x7b\x27action\x27: \x27".data) ++ pyStr name
      ++ ("\x27, \x27action_input\x27: ".data) ++ pyStr arguments
      ++ ("\x7d</action>".data)

/-- Role string of `SystemMessage`. -/
def systemRole : List Char := "system".data

/-- Content of the synthetic observation message built from a
`FunctionResult`: the f-string `Observation: ...` over the result. -/
def observationOf (r : PyLit) : List Char := ("Observation: ".data) ++ pyStr r

/-- Messages contributed by one transcript entry in `prompt_generator`:
a `BaseMessage` passes through, a `FunctionResult` becomes a system
observation message, everything else contributes nothing. -/
def promptStep : MessageLike → List BMessage
  | .message b => [b]
  | .functionResult r => [⟨systemRole, observationOf r⟩]
  | _ => []

/-- Accumulating loop of `prompt_generator` (the Python `for` loop that
appends to `messages`). -/
def promptLoop : List MessageLike → List BMessage → List BMessage
  | [], acc => acc
  | m :: rest, acc => promptLoop rest (acc ++ promptStep m)

/-- Embedding of `prompt_generator`. -/
def prompt_generator (log : List MessageLike) : List BMessage :=
  promptLoop log []

/-- Errors that abort `ChatAgent.run`: the empty-transcript assertion, or
an exception propagated from decoding the model output. -/
inductive RunError where
  | precondition : RunError
  | decodeError : PyErr → RunError

/-- Result of a `run` call: the transcript after the call (the Python code
mutates `message_log` in place), the number of model invocations performed,
and the error raised, if any. -/
structure RunResult where
  log : List MessageLike
  invocations : Nat
  error : Option RunError

/-- Transcript entries appended for one decoded action.  Modelled from the
spec: `create_llm_program` (module `langchain.automaton.runnables`, not
under `src/`) appends the model's textual message and, when the decoded
action is a `FunctionCall`, the `FunctionResult` of dispatching the named
tool; `execTool` is the tool-registry collaborator. -/
def entriesFor (execTool : PyLit → PyLit → PyLit) : MessageLike → List MessageLike
  | .agentFinish r => [.agentFinish r]
  | .functionCall n a => [.functionResult (execTool n a)]
  | _ => []

/-- Role string of the model's own messages. -/
def aiRole : List Char := "ai".data

/-- Modelled from the spec: the LLM program built by `create_llm_program`
(module `langchain.automaton.runnables`, not under `src/`).  It projects
the transcript to a prompt, invokes the model collaborator `llm` to get
raw text, decodes the text with `ActionEncoder.decode`, and returns the
entries to append: the model's message plus the entries for the decoded
action; a decode exception propagates. -/
def llm_program (llm : List BMessage → List Char) (execTool : PyLit → PyLit → PyLit)
    (log : List MessageLike) : Except PyErr (List MessageLike) :=
  let text := llm (prompt_generator log)
  match decode text with
  | .error e => .error e
  | .ok Option.none => .ok [.message ⟨aiRole, text⟩]
  | .ok (some a) => .ok (.message ⟨aiRole, text⟩ :: entriesFor execTool a)

/-- Iteration loop of `ChatAgent.run`: up to the given number of
iterations, stop when the last entry is an `AgentFinish`, otherwise invoke
the program once and append the entries it returns; an error from the
program aborts the loop after that invocation, leaving the transcript
as it was. -/
def runLoop (prog : List MessageLike → Except PyErr (List MessageLike)) :
    Nat → List MessageLike → RunResult
  | 0, log => ⟨log, 0, Option.none⟩
  | n + 1, log =>
    match log.getLast? with
    | Option.none => ⟨log, 0, Option.none⟩
    | some last =>
      if last.isFinish then ⟨log, 0, Option.none⟩
      else
        match prog log with
        | .error e => ⟨log, 1, some (.decodeError e)⟩
        | .ok msgs =>
          let r := runLoop prog n (log ++ msgs)
          ⟨r.log, r.invocations + 1, r.error⟩

/-- Embedding of `ChatAgent.run`: an empty transcript raises the
`AssertionError` precondition before anything else; otherwise the bounded
iteration loop runs. -/
def run (maxIterations : Nat) (prog : List MessageLike → Except PyErr (List MessageLike))
    (log : List MessageLike) : RunResult :=
  if log.isEmpty then ⟨log, 0, some .precondition⟩
  else runLoop prog maxIterations log

/-- Success test on a decode sub-step. -/
def exceptOk : Except PyErr PyLit → Bool
  | .ok _ => true
  | .error _ => false

/-- Well-structuredness of a captured blob: it parses as a literal and the
parsed value supports both subscriptions `data["action"]` and
`data["action_input"]`; this is everything `decode` needs to not raise. -/
def structureOk (blob : List Char) : Bool :=
  match literal_eval blob with
  | .error _ => false
  | .ok data => exceptOk (getItem data actionKey) && exceptOk (getItem data inputKey)

/-- Rendering of one transcript entry as the specification describes the
prompt projection: messages pass through, a `FunctionResult` becomes the
system observation message, other entries render to nothing.  Stated from
the spec, to be compared with `prompt_generator`. -/
def renderEntry : MessageLike → Option BMessage
  | .message b => some b
  | .functionResult r => some ⟨systemRole, ("Observation: ".data) ++ pyStr r⟩
  | _ => Option.none

/-- Test that a decode outcome is a non-terminating, non-raising one: no
action at all, or an ordinary tool call. -/
def nonTerminating : Except PyErr (Option MessageLike) → Bool
  | .ok Option.none => true
  | .ok (some (.functionCall _ _)) => true
  | _ => false

/-- Characters whose interpolation into the encoded template is inert: no
quote, backslash, tag opener, or escaped whitespace.  On such strings the
Python `repr` is plain single-quoting. -/
def safeChar (c : Char) : Bool :=
  c != sqc && c != bsl && c != '<' && c != nlc && c != crc && c != tbc

/-- A string of inert characters. -/
def safeStr (s : List Char) : Bool := s.all safeChar

/-- Condition on strings appearing as argument values: no `<` character.
Argument values pass through Python `repr`, whose escaping makes quotes,
backslashes and whitespace escapes round-trip; only a `<` can reach the
encoded blob raw and (as part of a closing tag) truncate the regex
capture. -/
def valStrOk (s : List Char) : Bool := s.all (fun c => c != '<')

/-- Key `k` does not collide (under Python `==`) with any key of the pair
list. -/
def keysFresh (k : PyLit) : List (PyLit × PyLit) → Bool
  | [] => true
  | (k0, _) :: rest => !(PyLit.beq k k0) && keysFresh k rest

/-- All keys of a pair list are pairwise distinct under Python `==`. -/
def keysNodupB : List (PyLit × PyLit) → Bool
  | [] => true
  | (k, _) :: rest => keysFresh k rest && keysNodupB rest

mutual
/-- Literal values whose encoding round-trips: strings without `<`
(quotes, backslashes and whitespace escapes are handled by the `repr`
escaping), integers, booleans, `None`, and lists/dicts of such values,
dict keys being such strings without duplicates. -/
def safeVal : PyLit → Bool
  | .none => true
  | .bool _ => true
  | .int _ => true
  | .str s => valStrOk s
  | .list l => safeItems l
  | .dict kvs => safePairs kvs && keysNodupB kvs

/-- Elementwise safety of list items. -/
def safeItems : List PyLit → Bool
  | [] => true
  | v :: rest => safeVal v && safeItems rest

/-- Safety of dict items: keys are `<`-free strings and values are safe. -/
def safePairs : List (PyLit × PyLit) → Bool
  | [] => true
  | (k, v) :: rest =>
    (match k with
     | .str s => valStrOk s
     | _ => false) && safeVal v && safePairs rest
end

/-- Continuations after which an integer literal parses unambiguously:
empty, or starting with a non-digit. -/
def restOk : List Char → Bool
  | [] => true
  | c :: _ => !c.isDigit

/-- Input of claim C3: the injection attempt. -/
def cexC3 : List Char :=
  ("<action>\x7b\x27action\x27: \x27__import__(\"os\")\x27, \x27action_input\x27: \x7b\x7d\x7d</action>").data

/-- Input whose delimited block omits the `action_input` key. -/
def cexC4 : List Char :=
  ("<action>\x7b\x27action\x27: \x27f\x27\x7d</action>").data

/-- Input whose first delimited block is malformed while the second is
well-formed. -/
def cexC5 : List Char :=
  ("<action>garbage</action><action>\x7b\x27action\x27: \x27f\x27, \x27action_input\x27: \x7b\x7d\x7d</action>").data

/-- A terminating model output: the `Final Answer` encoding of `4`. -/
def faEnc : List Char :=
  ("<action>\x7b\x27action\x27: \x27Final Answer\x27, \x27action_input\x27: \x274\x27\x7d</action>").data

/-! ## General lemmas about the codec -/

/-- Unfolding of `decode` on the `FunctionCall` path. -/
theorem decode_invoke_eq (text blob : List Char) (data name v : PyLit)
    (h1 : findBlob text = some blob) (h2 : literal_eval blob = .ok data)
    (h3 : getItem data actionKey = .ok name) (h4 : isFinalAnswer name = false)
    (h5 : getItem data inputKey = .ok v) :
    decode text = .ok (some (.functionCall name (if v.truthy then v else .dict []))) := by
  simp [decode, decodeData, h1, h2, h3, h4, h5]

/-- Unfolding of `decode` when the `action_input` subscription fails. -/
theorem decode_input_error_eq (text blob : List Char) (data name : PyLit) (e : PyErr)
    (h1 : findBlob text = some blob) (h2 : literal_eval blob = .ok data)
    (h3 : getItem data actionKey = .ok name) (h4 : isFinalAnswer name = false)
    (h5 : getItem data inputKey = .error e) :
    decode text = .error e := by
  simp [decode, decodeData, h1, h2, h3, h4, h5]

/-! ## Claims C2, C3, C4, C10 -/

/-- Claim C2: decode raises iff a malformed delimited block is present.
With no `<action>...</action>` pattern in the text, decode returns the
no-action result and never raises; when the first delimited block does not
parse as a literal supporting the required subscriptions, decode surfaces
an error to the caller. -/
theorem claim_C2_decode_error_discipline : ∀ text : List Char,
    (findBlob text = Option.none → decode text = .ok Option.none) ∧
    (∀ blob, findBlob text = some blob → structureOk blob = false →
      ∃ e, decode text = .error e) := by
  intro text
  constructor
  · intro h
    simp [decode, h]
  · intro blob hb hs
    unfold structureOk at hs
    cases he : literal_eval blob with
    | error e => exact ⟨e, by simp [decode, hb, he]⟩
    | ok data =>
      rw [he] at hs
      simp only [exceptOk] at hs
      cases h1 : getItem data actionKey with
      | error e => exact ⟨e, by simp [decode, decodeData, hb, he, h1]⟩
      | ok name =>
        rw [h1] at hs
        simp only [Bool.true_and] at hs
        cases h2 : getItem data inputKey with
        | error e =>
          refine ⟨e, ?_⟩
          cases hf : isFinalAnswer name <;>
            simp [decode, decodeData, hb, he, h1, h2, hf]
        | ok v =>
          rw [h2] at hs
          simp [exceptOk] at hs

/-- Witness for C2: a plain text decodes to no action; a delimited block
around a non-literal raises. -/
theorem claim_C2_witness :
    decode ("hello there".data) = .ok Option.none ∧
    ∃ e, decode ("<action>]bad[</action>".data) = .error e := by
  constructor
  · exact (claim_C2_decode_error_discipline ("hello there".data)).1 rfl
  · exact (claim_C2_decode_error_discipline ("<action>]bad[</action>".data)).2
      ("]bad[".data) rfl rfl

/-- Claim C3: the injection attempt decodes to plain data; the action name
is the literal string `__import__("os")` with empty arguments, produced by
the literal-only parser, never evaluated. -/
theorem claim_C3_injection_is_data :
    decode cexC3 = .ok (some (.functionCall (.str ("__import__(\"os\")".data)) (.dict []))) :=
  rfl

/-- Counterexample to claim C4: on a delimited block that omits the
`action_input` key entirely, decode raises `KeyError` instead of
defaulting to an empty mapping. -/
theorem claim_C4_counterexample :
    decode cexC4 = .error (.keyError inputKey) ∧
    decode cexC4 ≠ .ok (some (.functionCall (.str ['f']) (.dict []))) := by
  refine ⟨rfl, ?_⟩
  intro h
  rw [show decode cexC4 = .error (.keyError inputKey) from rfl] at h
  exact Except.noConfusion h

/-- Claim C4 as amended: for a decoded block whose `action` is not
`"Final Answer"`, a present falsy `action_input` yields an empty argument
mapping, but a missing `action_input` key is a `KeyError` raised out of
decode, not a default. -/
theorem claim_C4_missing_input_raises : ∀ (text blob : List Char) (data name : PyLit),
    findBlob text = some blob → literal_eval blob = .ok data →
    getItem data actionKey = .ok name → isFinalAnswer name = false →
    (getItem data inputKey = .error (.keyError inputKey) →
      decode text = .error (.keyError inputKey)) ∧
    (∀ v, getItem data inputKey = .ok v → v.truthy = false →
      decode text = .ok (some (.functionCall name (.dict [])))) := by
  intro text blob data name h1 h2 h3 h4
  constructor
  · intro h5
    exact decode_input_error_eq text blob data name _ h1 h2 h3 h4 h5
  · intro v h5 hv
    have h := decode_invoke_eq text blob data name v h1 h2 h3 h4 h5
    rw [hv] at h
    simpa using h

/-- Witness for the amended C4, on the concrete block missing
`action_input` and on a block with `action_input: None`. -/
theorem claim_C4_witness :
    decode cexC4 = .error (.keyError inputKey) ∧
    decode (("<action>\x7b\x27action\x27: \x27f\x27, \x27action_input\x27: None\x7d</action>").data) =
      .ok (some (.functionCall (.str ['f']) (.dict []))) := by
  constructor
  · exact (claim_C4_missing_input_raises cexC4 (("\x7b\x27action\x27: \x27f\x27\x7d").data)
      (.dict [(.str actionKey, .str ['f'])]) (.str ['f']) rfl rfl rfl rfl).1 rfl
  · exact (claim_C4_missing_input_raises
      (("<action>\x7b\x27action\x27: \x27f\x27, \x27action_input\x27: None\x7d</action>").data)
      (("\x7b\x27action\x27: \x27f\x27, \x27action_input\x27: None\x7d").data)
      (.dict [(.str actionKey, .str ['f']), (.str inputKey, PyLit.none)])
      (.str ['f']) rfl rfl rfl rfl).2 PyLit.none rfl rfl

/-- Claim C10: the `or` in `data["action_input"] or ...` replaces every
falsy present `action_input` (zero, empty string, `False`, empty list,
`None`, empty dict) by the empty mapping and passes every truthy value
through unchanged. -/
theorem claim_C10_falsy_inputs_default : ∀ (text blob : List Char) (data name v : PyLit),
    findBlob text = some blob → literal_eval blob = .ok data →
    getItem data actionKey = .ok name → isFinalAnswer name = false →
    getItem data inputKey = .ok v →
    (v.truthy = false → decode text = .ok (some (.functionCall name (.dict [])))) ∧
    (v.truthy = true → decode text = .ok (some (.functionCall name v))) ∧
    PyLit.truthy (.int 0) = false ∧ PyLit.truthy (.str []) = false ∧
    PyLit.truthy (.bool false) = false ∧ PyLit.truthy (.list []) = false ∧
    PyLit.truthy PyLit.none = false ∧ PyLit.truthy (.dict []) = false := by
  intro text blob data name v h1 h2 h3 h4 h5
  have h := decode_invoke_eq text blob data name v h1 h2 h3 h4 h5
  refine ⟨?_, ?_, rfl, rfl, rfl, rfl, rfl, rfl⟩
  · intro hv; rw [hv] at h; simpa using h
  · intro hv; rw [hv] at h; simpa using h

/-- Witness for C10: a falsy `action_input` of `0` becomes the empty
mapping; a truthy non-mapping `action_input` of `7` passes through. -/
theorem claim_C10_witness :
    decode (("<action>\x7b\x27action\x27: \x27f\x27, \x27action_input\x27: 0\x7d</action>").data) =
      .ok (some (.functionCall (.str ['f']) (.dict []))) ∧
    decode (("<action>\x7b\x27action\x27: \x27f\x27, \x27action_input\x27: 7\x7d</action>").data) =
      .ok (some (.functionCall (.str ['f']) (.int 7))) := by
  constructor
  · exact (claim_C10_falsy_inputs_default
      (("<action>\x7b\x27action\x27: \x27f\x27, \x27action_input\x27: 0\x7d</action>").data)
      (("\x7b\x27action\x27: \x27f\x27, \x27action_input\x27: 0\x7d").data)
      (.dict [(.str actionKey, .str ['f']), (.str inputKey, .int 0)])
      (.str ['f']) (.int 0) rfl rfl rfl rfl rfl).1 rfl
  · exact ((claim_C10_falsy_inputs_default
      (("<action>\x7b\x27action\x27: \x27f\x27, \x27action_input\x27: 7\x7d</action>").data)
      (("\x7b\x27action\x27: \x27f\x27, \x27action_input\x27: 7\x7d").data)
      (.dict [(.str actionKey, .str ['f']), (.str inputKey, .int 7)])
      (.str ['f']) (.int 7) rfl rfl rfl rfl rfl).2).1 rfl

/-! ## Claims C5, C6, C7 -/

/-- A list is a `isPrefixOf` itself extended by anything. -/
theorem isPrefixOf_append_self : ∀ (l t : List Char), l.isPrefixOf (l ++ t) = true := by
  intro l t
  induction l with
  | nil => cases t <;> rfl
  | cons c cs ih => simp [List.isPrefixOf, ih]

/-- Splitting at a pattern that starts the text. -/
theorem splitFirst_self (p : Char) (ps xs : List Char) :
    splitFirst (p :: ps) ((p :: ps) ++ xs) = some ([], xs) := by
  have hpre := isPrefixOf_append_self (p :: ps) xs
  rw [List.cons_append]
  unfold splitFirst
  rw [← List.cons_append, hpre]
  simp [List.drop_left]

/-- Splitting at a pattern after a chunk that never contains the pattern's
first character. -/
theorem splitFirst_skip (p0 : Char) (ps : List Char) :
    ∀ (xs rest : List Char), xs.all (fun c => c != p0) = true →
    splitFirst (p0 :: ps) (xs ++ ((p0 :: ps) ++ rest)) = some (xs, rest) := by
  intro xs
  induction xs with
  | nil =>
    intro rest _
    simpa using splitFirst_self p0 ps rest
  | cons c cs ih =>
    intro rest h
    simp only [List.all_cons, Bool.and_eq_true] at h
    obtain ⟨hc, hcs⟩ := h
    have hne : c ≠ p0 := by
      intro heq
      rw [heq] at hc
      simp at hc
    have hbeq : (p0 == c) = false := beq_eq_false_iff_ne.mpr (Ne.symm hne)
    rw [List.cons_append]
    unfold splitFirst
    rw [show ((p0 :: ps).isPrefixOf (c :: (cs ++ ((p0 :: ps) ++ rest)))) = false by
      simp [List.isPrefixOf, hbeq]]
    rw [ih rest hcs]
    simp

/-- The action blob of a text of the shape `<action>BLOB</action>REST`,
when the blob contains no `<`. -/
theorem findBlob_decomp (blob rest : List Char)
    (hb : blob.all (fun c => c != '<') = true) :
    findBlob (openTag ++ (blob ++ (closeTag ++ rest))) = some blob := by
  have h1 : splitFirst openTag (openTag ++ (blob ++ (closeTag ++ rest))) =
      some ([], blob ++ (closeTag ++ rest)) := by
    rw [show openTag = '<' :: ("action>".data) from rfl]
    exact splitFirst_self '<' ("action>".data) _
  have h2 : splitFirst closeTag (blob ++ (closeTag ++ rest)) = some (blob, rest) := by
    rw [show closeTag = '<' :: ("/action>".data) from rfl]
    exact splitFirst_skip '<' ("/action>".data) blob rest hb
  simp [findBlob, h1, h2]

/-- Claim C5 as amended: decode always consumes the first delimited block;
the outcome is a function of that block alone, whatever follows it — in
particular a malformed first block fails even when a later block is
well-formed. -/
theorem claim_C5_first_block_decides : ∀ (blob rest : List Char),
    blob.all (fun c => c != '<') = true →
    decode (openTag ++ (blob ++ (closeTag ++ rest))) =
      (match literal_eval blob with
       | .error e => .error e
       | .ok data =>
         match decodeData data with
         | .error e => .error e
         | .ok m => .ok (some m)) := by
  intro blob rest hb
  unfold decode
  rw [findBlob_decomp blob rest hb]

/-- Counterexample to claim C5: with a malformed first block and a
well-formed second block, decode raises instead of yielding the action of
the first well-formed block. -/
theorem claim_C5_counterexample :
    decode cexC5 = .error .malformed ∧
    decode cexC5 ≠ .ok (some (.functionCall (.str ['f']) (.dict []))) := by
  refine ⟨rfl, ?_⟩
  intro h
  rw [show decode cexC5 = .error .malformed from rfl] at h
  exact Except.noConfusion h

/-- Witness for the amended C5: the malformed first block decides the
outcome even when a well-formed block follows. -/
theorem claim_C5_witness :
    decode (openTag ++ (("garbage".data) ++ (closeTag ++
      (("<action>\x7b\x27action\x27: \x27g\x27, \x27action_input\x27: 1\x7d</action>").data)))) =
      .error .malformed := by
  rw [claim_C5_first_block_decides ("garbage".data) _ (by decide)]
  rfl

/-- Claim C6: running on an empty transcript yields the precondition error
with zero model invocations and an unchanged transcript. -/
theorem claim_C6_empty_transcript_precondition :
    ∀ (maxIterations : Nat) (prog : List MessageLike → Except PyErr (List MessageLike)),
    run maxIterations prog [] = ⟨[], 0, some .precondition⟩ :=
  fun _ _ => rfl

/-- The accumulating prompt loop is a `filterMap`. -/
theorem promptLoop_filterMap : ∀ (log : List MessageLike) (acc : List BMessage),
    promptLoop log acc = acc ++ log.filterMap renderEntry := by
  intro log
  induction log with
  | nil => intro acc; simp [promptLoop]
  | cons m rest ih =>
    intro acc
    cases m <;> simp [promptLoop, promptStep, renderEntry, ih, observationOf]

/-- Claim C7: the prompt projection maps entries pointwise in order:
messages pass through unchanged, a `FunctionResult` becomes the system
message `Observation: <result>` (`42` yields `Observation: 42`), and
every other entry produces no message. -/
theorem claim_C7_projection_pointwise :
    (∀ log : List MessageLike, prompt_generator log = log.filterMap renderEntry) ∧
    prompt_generator [.functionResult (.int 42)] =
      [⟨systemRole, ("Observation: 42".data)⟩] := by
  constructor
  · intro log
    simp [prompt_generator, promptLoop_filterMap]
  · rfl

/-! ## Claims C8, C9: the iteration loop -/

/-- The loop never performs more invocations than its iteration budget. -/
theorem runLoop_le (prog : List MessageLike → Except PyErr (List MessageLike)) :
    ∀ (n : Nat) (log : List MessageLike), (runLoop prog n log).invocations ≤ n := by
  intro n
  induction n with
  | zero => intro log; exact Nat.le_refl 0
  | succ n ih =>
    intro log
    unfold runLoop
    cases h : log.getLast? with
    | none => simp
    | some last =>
      by_cases hf : last.isFinish = true
      · simp [hf]
      · simp only [Bool.not_eq_true] at hf
        simp only [hf, Bool.false_eq_true, if_false]
        cases hp : prog log with
        | error e => simp
        | ok msgs =>
          simp only []
          exact Nat.succ_le_succ (ih (log ++ msgs))

/-- When the program always succeeds and never returns a finish entry, the
loop runs its full budget: exactly `n` invocations, no error, and the
transcript only grows, never acquiring a finish entry. -/
theorem runLoop_exhausts (prog : List MessageLike → Except PyErr (List MessageLike))
    (hprog : ∀ l, ∃ msgs, prog l = .ok msgs ∧ ∀ m ∈ msgs, m.isFinish = false) :
    ∀ (n : Nat) (log : List MessageLike), log ≠ [] → (∀ m ∈ log, m.isFinish = false) →
    (runLoop prog n log).invocations = n ∧ (runLoop prog n log).error = Option.none ∧
    ∃ t, (runLoop prog n log).log = log ++ t ∧ ∀ m ∈ log ++ t, m.isFinish = false := by
  intro n
  induction n with
  | zero =>
    intro log h1 h2
    exact ⟨rfl, rfl, [], by simp [runLoop], by simpa using h2⟩
  | succ n ih =>
    intro log h1 h2
    obtain ⟨l0, a, hcat⟩ := (List.eq_nil_or_concat log).resolve_left h1
    rw [List.concat_eq_append] at hcat
    subst hcat
    have hlast : (l0 ++ [a]).getLast? = some a := by simp
    have hafin : a.isFinish = false := h2 a (by simp)
    obtain ⟨msgs, hp, hmf⟩ := hprog (l0 ++ [a])
    have hne : (l0 ++ [a]) ++ msgs ≠ [] := by simp
    have hall : ∀ m ∈ (l0 ++ [a]) ++ msgs, m.isFinish = false := by
      intro m hm
      rcases List.mem_append.mp hm with h | h
      · exact h2 m h
      · exact hmf m h
    obtain ⟨hinv, herr, t, hlog, hfin⟩ := ih ((l0 ++ [a]) ++ msgs) hne hall
    have hstep : runLoop prog (n + 1) (l0 ++ [a]) =
        ⟨(runLoop prog n ((l0 ++ [a]) ++ msgs)).log,
         (runLoop prog n ((l0 ++ [a]) ++ msgs)).invocations + 1,
         (runLoop prog n ((l0 ++ [a]) ++ msgs)).error⟩ := by
      conv_lhs => unfold runLoop
      rw [hlast]
      simp only [hafin, Bool.false_eq_true, if_false, hp]
    rw [hstep]
    refine ⟨by rw [hinv], by rw [herr], msgs ++ t, ?_, ?_⟩
    · show (runLoop prog n (l0 ++ [a] ++ msgs)).log = l0 ++ [a] ++ (msgs ++ t)
      rw [hlog, List.append_assoc]
    · intro m hm
      exact hfin m (by rw [List.append_assoc]; exact hm)

/-- A model whose output always decodes without error to a non-terminating
action yields a program that always succeeds without finish entries. -/
theorem llm_program_nonterminating (llm : List BMessage → List Char)
    (execTool : PyLit → PyLit → PyLit)
    (hllm : ∀ msgs, nonTerminating (decode (llm msgs)) = true) :
    ∀ l, ∃ msgs, llm_program llm execTool l = .ok msgs ∧
      ∀ m ∈ msgs, m.isFinish = false := by
  intro l
  have hl := hllm (prompt_generator l)
  cases hd : decode (llm (prompt_generator l)) with
  | error e => rw [hd] at hl; simp [nonTerminating] at hl
  | ok o =>
    cases o with
    | none =>
      refine ⟨[.message ⟨aiRole, llm (prompt_generator l)⟩], by simp [llm_program, hd], ?_⟩
      intro m hm
      simp at hm
      subst hm
      rfl
    | some a =>
      cases a with
      | message b =>
        refine ⟨.message ⟨aiRole, llm (prompt_generator l)⟩ ::
          entriesFor execTool (.message b), by simp [llm_program, hd], ?_⟩
        intro m hm
        simp [entriesFor] at hm
        subst hm
        rfl
      | functionResult r0 =>
        refine ⟨.message ⟨aiRole, llm (prompt_generator l)⟩ ::
          entriesFor execTool (.functionResult r0), by simp [llm_program, hd], ?_⟩
        intro m hm
        simp [entriesFor] at hm
        subst hm
        rfl
      | functionCall nm args =>
        refine ⟨.message ⟨aiRole, llm (prompt_generator l)⟩ ::
          entriesFor execTool (.functionCall nm args), by simp [llm_program, hd], ?_⟩
        intro m hm
        simp [entriesFor] at hm
        rcases hm with h | h <;> (subst h; rfl)
      | agentFinish r0 => rw [hd] at hl; simp [nonTerminating] at hl

/-- Claim C8: with a model that never produces a terminating action,
`run` with a budget of 3 performs exactly 3 invocations, returns without
error, leaves no finish entry, and keeps all previous entries; in general
`run` never exceeds its budget of model invocations. -/
theorem claim_C8_exhaustion_bound :
    ∀ (llm : List BMessage → List Char) (execTool : PyLit → PyLit → PyLit)
      (log : List MessageLike),
    log ≠ [] → (∀ m ∈ log, m.isFinish = false) →
    (∀ msgs, nonTerminating (decode (llm msgs)) = true) →
    ((run 3 (llm_program llm execTool) log).invocations = 3 ∧
     (run 3 (llm_program llm execTool) log).error = Option.none ∧
     (∀ m ∈ (run 3 (llm_program llm execTool) log).log, m.isFinish = false) ∧
     ∃ t, (run 3 (llm_program llm execTool) log).log = log ++ t) ∧
    ∀ maxIterations : Nat,
      (run maxIterations (llm_program llm execTool) log).invocations ≤ maxIterations := by
  intro llm execTool log h1 h2 h3
  have hprog := llm_program_nonterminating llm execTool h3
  have hemp : log.isEmpty = false := by
    cases log with
    | nil => exact absurd rfl h1
    | cons _ _ => rfl
  have hrun : ∀ mi : Nat, run mi (llm_program llm execTool) log =
      runLoop (llm_program llm execTool) mi log := by
    intro mi
    unfold run
    rw [hemp]
    simp
  obtain ⟨hinv, herr, t, hlog, hfin⟩ := runLoop_exhausts _ hprog 3 log h1 h2
  refine ⟨⟨?_, ?_, ?_, ⟨t, ?_⟩⟩, ?_⟩
  · rw [hrun]; exact hinv
  · rw [hrun]; exact herr
  · rw [hrun, hlog]; exact hfin
  · rw [hrun]; exact hlog
  · intro mi
    rw [hrun]
    exact runLoop_le _ _ _

/-- Witness for C8: a model stub that always answers plain text drives the
loop through its full budget of 3 invocations. -/
theorem claim_C8_witness :
    (run 3 (llm_program (fun _ => ("thinking".data)) (fun _ _ => PyLit.none))
      [.message ⟨("human".data), ("hi".data)⟩]).invocations = 3 :=
  (claim_C8_exhaustion_bound (fun _ => ("thinking".data)) (fun _ _ => PyLit.none)
    [.message ⟨("human".data), ("hi".data)⟩]
    (by simp) (by intro m hm; simp at hm; subst hm; rfl) (fun _ => rfl)).1.1

/-- Claim C9: seeded with one message and a model that immediately returns
a `Final Answer` encoding, `run` performs exactly one invocation and
appends exactly the model's message followed by the finish entry. -/
theorem claim_C9_final_answer_terminates :
    ∀ (llm : List BMessage → List Char) (execTool : PyLit → PyLit → PyLit)
      (b : BMessage) (t : List Char) (r : PyLit) (k : Nat),
    (∀ msgs, llm msgs = t) →
    decode t = .ok (some (.agentFinish r)) →
    run (k + 1) (llm_program llm execTool) [.message b] =
      ⟨[.message b, .message ⟨aiRole, t⟩, .agentFinish r], 1, Option.none⟩ := by
  intro llm execTool b t r k hllm hdec
  have hprog : llm_program llm execTool [.message b] =
      .ok [.message ⟨aiRole, t⟩, .agentFinish r] := by
    simp [llm_program, hllm, hdec, entriesFor]
  have hstep : run (k + 1) (llm_program llm execTool) [.message b] =
      ⟨(runLoop (llm_program llm execTool) k
          ([.message b] ++ [.message ⟨aiRole, t⟩, .agentFinish r])).log,
       (runLoop (llm_program llm execTool) k
          ([.message b] ++ [.message ⟨aiRole, t⟩, .agentFinish r])).invocations + 1,
       (runLoop (llm_program llm execTool) k
          ([.message b] ++ [.message ⟨aiRole, t⟩, .agentFinish r])).error⟩ := by
    unfold run
    simp only [List.isEmpty_cons, Bool.false_eq_true, if_false]
    simp only [runLoop, List.getLast?_singleton, MessageLike.isFinish,
      Bool.false_eq_true, if_false, hprog]
  rw [hstep]
  have hfin : runLoop (llm_program llm execTool) k
      ([.message b] ++ [.message ⟨aiRole, t⟩, .agentFinish r]) =
      ⟨[.message b, .message ⟨aiRole, t⟩, .agentFinish r], 0, Option.none⟩ := by
    cases k with
    | zero => rfl
    | succ j =>
      simp [runLoop, List.getLast?_cons_cons, List.getLast?_singleton,
        MessageLike.isFinish]
  rw [hfin]

/-- Witness for C9: with the concrete `Final Answer` encoding of `4` and
the default budget of 10, the run stops after one invocation. -/
theorem claim_C9_witness :
    run 10 (llm_program (fun _ => faEnc) (fun _ _ => PyLit.none))
      [.message ⟨("human".data), ("hi".data)⟩] =
      ⟨[.message ⟨("human".data), ("hi".data)⟩, .message ⟨aiRole, faEnc⟩,
        .agentFinish (.str ['4'])], 1, Option.none⟩ :=
  claim_C9_final_answer_terminates (fun _ => faEnc) (fun _ _ => PyLit.none)
    ⟨("human".data), ("hi".data)⟩ faEnc (.str ['4']) 9 (fun _ => rfl) rfl

/-! ## Claim C1: lemmas about the encoder and the parser -/

/-- Unpacking of `safeChar`. -/
theorem safeChar_spec (c : Char) (h : safeChar c = true) :
    c ≠ sqc ∧ c ≠ bsl ∧ c ≠ '<' ∧ c ≠ nlc ∧ c ≠ crc ∧ c ≠ tbc := by
  simp only [safeChar, Bool.and_eq_true, bne_iff_ne] at h
  exact ⟨h.1.1.1.1.1, h.1.1.1.1.2, h.1.1.1.2, h.1.1.2, h.1.2, h.2⟩

/-- Inert strings satisfy the wider `<`-free condition on argument
strings. -/
theorem safeStr_imp_valStrOk (s : List Char) (h : safeStr s = true) :
    valStrOk s = true := by
  unfold valStrOk
  unfold safeStr at h
  rw [List.all_eq_true] at h ⊢
  intro c hc
  exact bne_iff_ne.mpr (safeChar_spec c (h c hc)).2.2.1

/-- On a safe string the quoted-string parser reads exactly up to the
closing quote. -/
theorem parseStringBody_safe : ∀ (s rest : List Char), safeStr s = true →
    parseStringBody sqc (s ++ sqc :: rest) = some (s, rest) := by
  intro s
  induction s with
  | nil =>
    intro rest _
    unfold parseStringBody
    simp
  | cons c cs ih =>
    intro rest h
    simp only [safeStr, List.all_cons, Bool.and_eq_true] at h
    obtain ⟨hc, hcs⟩ := h
    obtain ⟨h1, h2, _, h4, _, _⟩ := safeChar_spec c hc
    rw [List.cons_append]
    unfold parseStringBody
    rw [if_neg h1, if_neg h2, if_neg h4]
    rw [ih rest hcs]

/-- A safe string contains no single quote. -/
theorem safeStr_not_contains_sqc : ∀ s : List Char, safeStr s = true →
    s.contains sqc = false := by
  intro s
  induction s with
  | nil => intro _; rfl
  | cons c cs ih =>
    intro h
    simp only [safeStr, List.all_cons, Bool.and_eq_true] at h
    obtain ⟨hc, hcs⟩ := h
    obtain ⟨h1, _, _, _, _, _⟩ := safeChar_spec c hc
    have hmem : sqc ∉ cs := by simpa using ih hcs
    simp [Ne.symm h1, hmem]

/-- Escaping is the identity on safe strings. -/
theorem escString_safe : ∀ s : List Char, safeStr s = true →
    escString sqc s = s := by
  intro s
  induction s with
  | nil => intro _; rfl
  | cons c cs ih =>
    intro h
    simp only [safeStr, List.all_cons, Bool.and_eq_true] at h
    obtain ⟨hc, hcs⟩ := h
    obtain ⟨h1, h2, _, h4, h5, h6⟩ := safeChar_spec c hc
    simp only [escString, escChar, if_neg h1, if_neg h2, if_neg h4, if_neg h5, if_neg h6]
    rw [ih hcs]
    rfl

/-- Python `repr` of a safe string is plain single-quoting. -/
theorem strRepr_safe (s : List Char) (h : safeStr s = true) :
    strRepr s = sqc :: s ++ [sqc] := by
  have hq : strQuote s = sqc := by
    unfold strQuote
    rw [safeStr_not_contains_sqc s h]
    rfl
  unfold strRepr
  rw [hq, escString_safe s h]

/-- Facts about the ten digit characters. -/
theorem digitChar10_facts : ∀ d : Nat, d < 10 →
    (digitChar10 d).isDigit = true ∧ (digitChar10 d).toNat - 48 = d ∧
    (d ≠ 0 → digitChar10 d ≠ '0') := by
  intro d hd
  interval_cases d
  · exact ⟨rfl, rfl, fun h => absurd rfl h⟩
  all_goals exact ⟨rfl, rfl, fun _ => by decide⟩

/-- Fuelled digit extraction agrees with `Nat.digits` when the fuel covers
the number. -/
theorem natDigitsAux_eq_digits : ∀ (fuel n : Nat), n ≤ fuel →
    natDigitsAux fuel n = (Nat.digits 10 n).map digitChar10 := by
  intro fuel
  induction fuel with
  | zero =>
    intro n h
    interval_cases n
    simp [natDigitsAux]
  | succ fuel ih =>
    intro n h
    cases n with
    | zero => simp [natDigitsAux]
    | succ m =>
      rw [show natDigitsAux (fuel + 1) (m + 1) =
        digitChar10 ((m + 1) % 10) :: natDigitsAux fuel ((m + 1) / 10) from rfl]
      have hdiv : (m + 1) / 10 ≤ fuel := by
        have := Nat.div_lt_self (Nat.succ_pos m) (by norm_num : 1 < 10)
        omega
      rw [ih ((m + 1) / 10) hdiv]
      rw [Nat.digits_def' (by norm_num : 1 < 10) (Nat.succ_pos m)]
      simp

/-- Unfolded form of `natRepr` for nonzero arguments. -/
theorem natRepr_eq (n : Nat) (h : n ≠ 0) :
    natRepr n = ((Nat.digits 10 n).map digitChar10).reverse := by
  unfold natRepr
  rw [if_neg h, natDigitsAux_eq_digits n n (Nat.le_refl n)]

/-- Every character of `natRepr` is a digit. -/
theorem natRepr_all_digits : ∀ (n : Nat), ∀ c ∈ natRepr n, c.isDigit = true := by
  intro n c hc
  by_cases h : n = 0
  · subst h
    simp only [natRepr, if_pos rfl, List.mem_singleton] at hc
    simp only [reduceIte, List.mem_singleton] at hc
    subst hc
    rfl
  · rw [natRepr_eq n h] at hc
    rw [List.mem_reverse, List.mem_map] at hc
    obtain ⟨d, hd, rfl⟩ := hc
    exact (digitChar10_facts d (Nat.digits_lt_base (by norm_num) hd)).1

/-- The digit string of a number is never empty. -/
theorem natRepr_ne_nil (n : Nat) : natRepr n ≠ [] := by
  by_cases h : n = 0
  · subst h; simp [natRepr]
  · rw [natRepr_eq n h]
    simp [(@Nat.digits_ne_nil_iff_ne_zero 10 n).mpr h]

/-- The digit string of a number never has a forbidden leading zero. -/
theorem natRepr_no_leading_zero (n : Nat) (d : Char) (ds : List Char)
    (hds : natRepr n = d :: ds) : (d = '0' && !ds.isEmpty) = false := by
  by_cases h : n = 0
  · subst h
    simp only [natRepr, if_pos rfl] at hds
    cases hds
    rfl
  · have hne : Nat.digits 10 n ≠ [] := (@Nat.digits_ne_nil_iff_ne_zero 10 n).mpr h
    have hlast := Nat.getLast_digit_ne_zero 10 h
    have hlt : (Nat.digits 10 n).getLast hne < 10 :=
      Nat.digits_lt_base (by norm_num) (List.getLast_mem hne)
    have hd0 : d ≠ '0' := by
      rw [natRepr_eq n h] at hds
      have hh : (((Nat.digits 10 n).map digitChar10).reverse).head? = some d := by
        rw [hds]; rfl
      rw [List.head?_reverse, List.getLast?_map,
        List.getLast?_eq_getLast _ hne, Option.map_some'] at hh
      have heq : digitChar10 ((Nat.digits 10 n).getLast hne) = d := Option.some.inj hh
      rw [← heq]
      exact (digitChar10_facts _ hlt).2.2 hlast
    simp [hd0]

/-- Folding the digit characters of a little-endian digit list, most
significant first, recovers the positional value. -/
theorem foldl_digits : ∀ (L : List Nat), (∀ d ∈ L, d < 10) → ∀ (a : Nat),
    List.foldl (fun acc c => acc * 10 + (c.toNat - 48)) a ((L.map digitChar10).reverse) =
      a * 10 ^ L.length + Nat.ofDigits 10 L := by
  intro L
  induction L with
  | nil => intro _ a; simp [Nat.ofDigits_nil]
  | cons d L ih =>
    intro hL a
    rw [List.map_cons, List.reverse_cons, List.foldl_append]
    rw [ih (fun x hx => hL x (List.mem_cons_of_mem d hx)) a]
    have hd : (digitChar10 d).toNat - 48 = d :=
      (digitChar10_facts d (hL d (List.mem_cons_self d L))).2.1
    simp only [List.foldl_cons, List.foldl_nil, hd, Nat.ofDigits_cons,
      List.length_cons, Nat.pow_succ]
    ring

/-- Reading back the decimal representation recovers the number. -/
theorem digitsToNat_natRepr (n : Nat) : digitsToNat (natRepr n) = n := by
  by_cases h : n = 0
  · subst h; rfl
  · rw [natRepr_eq n h]
    unfold digitsToNat
    rw [foldl_digits (Nat.digits 10 n)
      (fun d hd => Nat.digits_lt_base (by norm_num) hd) 0]
    simp [Nat.ofDigits_digits]

/-- Digits are split off exactly when the continuation starts with a
non-digit. -/
theorem takeDigits_append : ∀ (xs rest : List Char), (∀ c ∈ xs, c.isDigit = true) →
    restOk rest = true → takeDigits (xs ++ rest) = (xs, rest) := by
  intro xs
  induction xs with
  | nil =>
    intro rest h hr
    cases rest with
    | nil => rfl
    | cons c cs =>
      unfold restOk at hr
      simp only [Bool.not_eq_true'] at hr
      simp [takeDigits, hr]
  | cons c cs ih =>
    intro rest h hr
    rw [List.cons_append]
    unfold takeDigits
    rw [if_pos (h c (List.mem_cons_self c cs))]
    rw [ih rest (fun x hx => h x (List.mem_cons_of_mem c hx)) hr]

/-- The unsigned-integer parser reads back `natRepr`. -/
theorem parseNatPart_natRepr (n : Nat) (rest : List Char) (hr : restOk rest = true) :
    parseNatPart (natRepr n ++ rest) = some (n, rest) := by
  obtain ⟨d, ds, hds⟩ : ∃ d ds, natRepr n = d :: ds := by
    cases hnr : natRepr n with
    | nil => exact absurd hnr (natRepr_ne_nil n)
    | cons d ds => exact ⟨d, ds, rfl⟩
  have htake : takeDigits (natRepr n ++ rest) = (d :: ds, rest) := by
    rw [← hds]
    exact takeDigits_append _ _ (natRepr_all_digits n) hr
  unfold parseNatPart
  simp only [htake]
  rw [natRepr_no_leading_zero n d ds hds]
  simp only [Bool.false_eq_true, if_false]
  rw [← hds, digitsToNat_natRepr]

/-- The signed-integer parser reads back `intRepr`. -/
theorem parseIntLit_intRepr (n : Int) (rest : List Char) (hr : restOk rest = true) :
    parseIntLit (intRepr n ++ rest) = some (n, rest) := by
  by_cases hn : n < 0
  · rw [show intRepr n = '-' :: natRepr n.natAbs from by unfold intRepr; rw [if_pos hn]]
    rw [List.cons_append]
    unfold parseIntLit
    split
    · rename_i cs2 heq
      rw [show cs2 = natRepr n.natAbs ++ rest from (List.tail_eq_of_cons_eq heq).symm]
      rw [parseNatPart_natRepr n.natAbs rest hr]
      simp
      rw [abs_of_neg hn, neg_neg]
    · rename_i hno
      exact absurd rfl (hno (natRepr n.natAbs ++ rest))
  · rw [show intRepr n = natRepr n.natAbs from by unfold intRepr; rw [if_neg hn]]
    obtain ⟨d, ds, hds⟩ : ∃ d ds, natRepr n.natAbs = d :: ds := by
      cases hnr : natRepr n.natAbs with
      | nil => exact absurd hnr (natRepr_ne_nil n.natAbs)
      | cons d ds => exact ⟨d, ds, rfl⟩
    have hd : d.isDigit = true := by
      apply natRepr_all_digits n.natAbs
      rw [hds]
      exact List.mem_cons_self d ds
    have hdm : d ≠ '-' := by
      intro he
      rw [he] at hd
      exact absurd hd (by decide)
    rw [hds, List.cons_append]
    unfold parseIntLit
    split
    · rename_i cs2 heq
      exact absurd (List.head_eq_of_cons_eq heq) hdm
    · rw [← List.cons_append, ← hds, parseNatPart_natRepr n.natAbs rest hr]
      simp [show (n.natAbs : Int) = n from by omega]

/-- A digit character is never whitespace. -/
theorem isDigit_not_ws (c : Char) (h : c.isDigit = true) : isWsChar c = false := by
  by_contra hw
  simp only [Bool.not_eq_false] at hw
  simp only [isWsChar, Bool.or_eq_true, decide_eq_true_eq] at hw
  rcases hw with ((h1 | h1) | h1) | h1 <;> (rw [h1] at h; exact absurd h (by decide))

/-- A digit character differs from every non-digit character. -/
theorem isDigit_ne (c : Char) (h : c.isDigit = true) (x : Char)
    (hx : x.isDigit = false) : c ≠ x := by
  intro he
  rw [he, hx] at h
  exact Bool.noConfusion h

/-- The first character of any `repr` exists and is neither whitespace nor
one of the closing tokens. -/
theorem pyRepr_head (v : PyLit) : ∃ c t, pyRepr v = c :: t ∧ isWsChar c = false ∧
    c ≠ ']' ∧ c ≠ rbr ∧ c ≠ ',' := by
  cases v with
  | none => exact ⟨'N', ("one".data), rfl, by decide, by decide, by decide, by decide⟩
  | bool b =>
    cases b with
    | true => exact ⟨'T', ("rue".data), rfl, by decide, by decide, by decide, by decide⟩
    | false => exact ⟨'F', ("alse".data), rfl, by decide, by decide, by decide, by decide⟩
  | int n =>
    by_cases hn : n < 0
    · refine ⟨'-', natRepr n.natAbs, ?_, by decide, by decide, by decide, by decide⟩
      show intRepr n = _
      unfold intRepr
      rw [if_pos hn]
    · obtain ⟨d, ds, hds⟩ : ∃ d ds, natRepr n.natAbs = d :: ds := by
        cases hnr : natRepr n.natAbs with
        | nil => exact absurd hnr (natRepr_ne_nil n.natAbs)
        | cons d ds => exact ⟨d, ds, rfl⟩
      have hd : d.isDigit = true := by
        apply natRepr_all_digits n.natAbs
        rw [hds]
        exact List.mem_cons_self d ds
      refine ⟨d, ds, ?_, isDigit_not_ws d hd, isDigit_ne d hd _ (by decide),
        isDigit_ne d hd _ (by decide), isDigit_ne d hd _ (by decide)⟩
      show intRepr n = d :: ds
      unfold intRepr
      rw [if_neg hn, hds]
  | str s =>
    show ∃ c t, strRepr s = c :: t ∧ _
    unfold strRepr strQuote
    by_cases hc : (s.contains sqc && !s.contains dqc) = true
    · rw [if_pos hc]
      exact ⟨dqc, escString dqc s ++ [dqc], rfl, by decide, by decide, by decide, by decide⟩
    · rw [if_neg hc]
      exact ⟨sqc, escString sqc s ++ [sqc], rfl, by decide, by decide, by decide, by decide⟩
  | list l =>
    exact ⟨'[', reprItems l ++ [']'], rfl, by decide, by decide, by decide, by decide⟩
  | dict kvs =>
    exact ⟨lbr, reprPairs kvs ++ [rbr], rfl, by decide, by decide, by decide, by decide⟩

/-- Leading whitespace removal is the identity when the head is not
whitespace. -/
theorem skipWs_cons_not (c : Char) (t : List Char) (h : isWsChar c = false) :
    skipWs (c :: t) = c :: t := by
  unfold skipWs
  rw [h]
  simp

/-- Leading whitespace removal is the identity in front of any `repr`. -/
theorem skipWs_pyRepr (v : PyLit) (rest : List Char) :
    skipWs (pyRepr v ++ rest) = pyRepr v ++ rest := by
  obtain ⟨c, t, hv, hws, _, _, _⟩ := pyRepr_head v
  rw [hv, List.cons_append, skipWs_cons_not c _ hws]

/-- A `repr` is never empty. -/
theorem pyRepr_ne_nil (v : PyLit) : pyRepr v ≠ [] := by
  obtain ⟨c, t, hv, _, _, _, _⟩ := pyRepr_head v
  rw [hv]
  simp

/-- A `repr` has at least one character. -/
theorem pyRepr_length_pos (v : PyLit) : 1 ≤ (pyRepr v).length :=
  List.length_pos.mpr (pyRepr_ne_nil v)

/-- Digit strings never contain the tag opener. -/
theorem natRepr_no_lt (n : Nat) : ∀ c ∈ natRepr n, (c != '<') = true := by
  intro c hc
  exact bne_iff_ne.mpr (isDigit_ne c (natRepr_all_digits n c hc) '<' (by decide))

/-- Integer `repr`s never contain the tag opener. -/
theorem intRepr_no_lt (n : Int) : ∀ c ∈ intRepr n, (c != '<') = true := by
  intro c hc
  unfold intRepr at hc
  by_cases hn : n < 0
  · rw [if_pos hn] at hc
    rcases List.mem_cons.mp hc with h | h
    · subst h; decide
    · exact natRepr_no_lt n.natAbs c h
  · rw [if_neg hn] at hc
    exact natRepr_no_lt n.natAbs c hc

/-- The quote `repr` picks is one of the two quote characters. -/
theorem strQuote_cases (s : List Char) : strQuote s = sqc ∨ strQuote s = dqc := by
  unfold strQuote
  by_cases hc : (s.contains sqc && !s.contains dqc) = true
  · rw [if_pos hc]; exact Or.inr rfl
  · rw [if_neg hc]; exact Or.inl rfl

/-- Escaped string bodies contain no tag opener when the source string and
the quote character have none. -/
theorem escString_no_lt (q : Char) (hq : q ≠ '<') : ∀ s : List Char,
    valStrOk s = true → ∀ c ∈ escString q s, (c != '<') = true := by
  intro s
  induction s with
  | nil => intro _ c hc; exact absurd hc (List.not_mem_nil c)
  | cons c0 cs ih =>
    intro h c hc
    have h' : (c0 != '<') = true ∧ valStrOk cs = true := by
      unfold valStrOk at h
      rw [List.all_cons, Bool.and_eq_true] at h
      exact ⟨h.1, h.2⟩
    rw [show escString q (c0 :: cs) = escChar q c0 ++ escString q cs from rfl] at hc
    rcases List.mem_append.mp hc with h1 | h1
    · unfold escChar at h1
      by_cases e1 : c0 = bsl
      · rw [if_pos e1] at h1
        rcases List.mem_cons.mp h1 with h2 | h2
        · subst h2; decide
        · simp only [List.mem_singleton] at h2; subst h2; decide
      · rw [if_neg e1] at h1
        by_cases e2 : c0 = q
        · rw [if_pos e2] at h1
          rcases List.mem_cons.mp h1 with h2 | h2
          · subst h2; decide
          · simp only [List.mem_singleton] at h2
            subst h2; exact bne_iff_ne.mpr hq
        · rw [if_neg e2] at h1
          by_cases e3 : c0 = nlc
          · rw [if_pos e3] at h1
            rcases List.mem_cons.mp h1 with h2 | h2
            · subst h2; decide
            · simp only [List.mem_singleton] at h2; subst h2; decide
          · rw [if_neg e3] at h1
            by_cases e4 : c0 = tbc
            · rw [if_pos e4] at h1
              rcases List.mem_cons.mp h1 with h2 | h2
              · subst h2; decide
              · simp only [List.mem_singleton] at h2; subst h2; decide
            · rw [if_neg e4] at h1
              by_cases e5 : c0 = crc
              · rw [if_pos e5] at h1
                rcases List.mem_cons.mp h1 with h2 | h2
                · subst h2; decide
                · simp only [List.mem_singleton] at h2; subst h2; decide
              · rw [if_neg e5] at h1
                simp only [List.mem_singleton] at h1
                subst h1; exact h'.1
    · exact ih h'.2 c h1

/-- The `repr` of a `<`-free string contains no tag opener: quotes and
escape sequences introduce no `<`. -/
theorem strRepr_no_lt (s : List Char) (h : valStrOk s = true) :
    ∀ c ∈ strRepr s, (c != '<') = true := by
  intro c hc
  have hq : strQuote s ≠ '<' := by
    rcases strQuote_cases s with h1 | h1 <;> (rw [h1]; decide)
  rw [show strRepr s = strQuote s :: escString (strQuote s) s ++ [strQuote s]
    from rfl] at hc
  rcases List.mem_cons.mp hc with h1 | h1
  · subst h1; exact bne_iff_ne.mpr hq
  · rcases List.mem_append.mp h1 with h2 | h2
    · exact escString_no_lt (strQuote s) hq s h c h2
    · simp only [List.mem_singleton] at h2; subst h2; exact bne_iff_ne.mpr hq

/-- The `repr` of a safe value never contains the tag opener `<`. -/
theorem pyRepr_no_lt : ∀ (N : Nat) (v : PyLit), (pyRepr v).length ≤ N →
    safeVal v = true → ∀ c ∈ pyRepr v, (c != '<') = true := by
  intro N
  induction N with
  | zero =>
    intro v h _
    exact absurd h (by have := pyRepr_length_pos v; omega)
  | succ N ih =>
    intro v hlen hsafe
    cases v with
    | none => intro c hc; fin_cases hc <;> decide
    | bool b => cases b <;> (intro c hc; fin_cases hc <;> decide)
    | int n => exact intRepr_no_lt n
    | str s =>
      have hsafe' : valStrOk s = true := hsafe
      intro c hc
      rw [show pyRepr (.str s) = strRepr s from rfl] at hc
      exact strRepr_no_lt s hsafe' c hc
    | list l =>
      have hsafe' : safeItems l = true := hsafe
      have hlen2 : (reprItems l).length ≤ N := by
        have he : pyRepr (.list l) = '[' :: reprItems l ++ [']'] := rfl
        rw [he] at hlen
        simp only [List.length_cons, List.length_append, List.length_singleton] at hlen
        omega
      have inner : ∀ (l' : List PyLit), (reprItems l').length ≤ N →
          safeItems l' = true → ∀ c ∈ reprItems l', (c != '<') = true := by
        intro l'
        induction l' with
        | nil => intro _ _ c hc; simp [reprItems] at hc
        | cons v rest ihl =>
          intro hl hs
          have hs' : safeVal v = true ∧ safeItems rest = true := by
            have : safeItems (v :: rest) = (safeVal v && safeItems rest) := rfl
            rw [this, Bool.and_eq_true] at hs
            exact hs
          cases rest with
          | nil =>
            rw [show reprItems [v] = pyRepr v from rfl] at hl ⊢
            exact ih v hl hs'.1
          | cons w ws =>
            rw [show reprItems (v :: w :: ws) =
              pyRepr v ++ ',' :: ' ' :: reprItems (w :: ws) from rfl] at hl ⊢
            have hlv : (pyRepr v).length ≤ N := by
              simp only [List.length_append, List.length_cons] at hl
              omega
            have hlr : (reprItems (w :: ws)).length ≤ N := by
              simp only [List.length_append, List.length_cons] at hl
              omega
            intro c hc
            rcases List.mem_append.mp hc with h | h
            · exact ih v hlv hs'.1 c h
            · rcases List.mem_cons.mp h with h2 | h2
              · subst h2; decide
              · rcases List.mem_cons.mp h2 with h3 | h3
                · subst h3; decide
                · exact ihl hlr hs'.2 c h3
      intro c hc
      rw [show pyRepr (.list l) = '[' :: reprItems l ++ [']'] from rfl] at hc
      rcases List.mem_cons.mp hc with h | h
      · subst h; decide
      · rcases List.mem_append.mp h with h2 | h2
        · exact inner l hlen2 hsafe' c h2
        · simp only [List.mem_singleton] at h2; subst h2; decide
    | dict kvs =>
      have hsafe' : safePairs kvs = true := by
        have : safeVal (.dict kvs) = (safePairs kvs && keysNodupB kvs) := rfl
        rw [this, Bool.and_eq_true] at hsafe
        exact hsafe.1
      have hlen2 : (reprPairs kvs).length ≤ N := by
        have he : pyRepr (.dict kvs) = lbr :: reprPairs kvs ++ [rbr] := rfl
        rw [he] at hlen
        simp only [List.length_cons, List.length_append, List.length_singleton] at hlen
        omega
      have inner : ∀ (kvs' : List (PyLit × PyLit)), (reprPairs kvs').length ≤ N →
          safePairs kvs' = true → ∀ c ∈ reprPairs kvs', (c != '<') = true := by
        intro kvs'
        induction kvs' with
        | nil => intro _ _ c hc; simp [reprPairs] at hc
        | cons kv tl ihl =>
          obtain ⟨k, v⟩ := kv
          intro hl hs
          cases k with
          | str ks =>
            have hs' : valStrOk ks = true ∧ safeVal v = true ∧ safePairs tl = true := by
              have heq : safePairs ((PyLit.str ks, v) :: tl) =
                  (valStrOk ks && safeVal v && safePairs tl) := rfl
              rw [heq, Bool.and_eq_true, Bool.and_eq_true] at hs
              exact ⟨hs.1.1, hs.1.2, hs.2⟩
            have hksafe : safeVal (PyLit.str ks) = true := hs'.1
            cases tl with
            | nil =>
              rw [show reprPairs [(PyLit.str ks, v)] =
                pyRepr (PyLit.str ks) ++ ':' :: ' ' :: pyRepr v from rfl] at hl ⊢
              have hlk : (pyRepr (PyLit.str ks)).length ≤ N := by
                simp only [List.length_append, List.length_cons] at hl
                omega
              have hlv : (pyRepr v).length ≤ N := by
                simp only [List.length_append, List.length_cons] at hl
                omega
              intro c hc
              rcases List.mem_append.mp hc with h | h
              · exact ih (PyLit.str ks) hlk hksafe c h
              · rcases List.mem_cons.mp h with h2 | h2
                · subst h2; decide
                · rcases List.mem_cons.mp h2 with h3 | h3
                  · subst h3; decide
                  · exact ih v hlv hs'.2.1 c h3
            | cons kv2 tl2 =>
              rw [show reprPairs ((PyLit.str ks, v) :: kv2 :: tl2) =
                pyRepr (PyLit.str ks) ++ ':' :: ' ' :: pyRepr v ++ ',' :: ' ' ::
                  reprPairs (kv2 :: tl2) from rfl] at hl ⊢
              have hlens : (pyRepr (PyLit.str ks)).length ≤ N ∧ (pyRepr v).length ≤ N ∧
                  (reprPairs (kv2 :: tl2)).length ≤ N := by
                simp only [List.length_append, List.length_cons] at hl
                omega
              intro c hc
              have hc' : c ∈ pyRepr (PyLit.str ks) ∨ c = ':' ∨ c = ' ' ∨
                  c ∈ pyRepr v ∨ c = ',' ∨ c ∈ reprPairs (kv2 :: tl2) := by
                simp only [List.mem_append, List.mem_cons, or_assoc] at hc
                tauto
              rcases hc' with h | h | h | h | h | h
              · exact ih (PyLit.str ks) hlens.1 hksafe c h
              · subst h; decide
              · subst h; decide
              · exact ih v hlens.2.1 hs'.2.1 c h
              · subst h; decide
              · exact ihl hlens.2.2 hs'.2.2 c h
          | none => exact Bool.noConfusion (show (false : Bool) = true from hs)
          | bool b => exact Bool.noConfusion (show (false : Bool) = true from hs)
          | int n => exact Bool.noConfusion (show (false : Bool) = true from hs)
          | list l2 => exact Bool.noConfusion (show (false : Bool) = true from hs)
          | dict kvs2 => exact Bool.noConfusion (show (false : Bool) = true from hs)
      intro c hc
      rw [show pyRepr (.dict kvs) = lbr :: reprPairs kvs ++ [rbr] from rfl] at hc
      rcases List.mem_cons.mp hc with h | h
      · subst h; decide
      · rcases List.mem_append.mp h with h2 | h2
        · exact inner kvs hlen2 hsafe' c h2
        · simp only [List.mem_singleton] at h2; subst h2; decide

/-- Keys are inserted by appending when no existing key collides. -/
theorem dictInsert_append : ∀ (acc : List (PyLit × PyLit)) (k v : PyLit),
    (∀ p ∈ acc, PyLit.beq p.1 k = false) → dictInsert acc k v = acc ++ [(k, v)] := by
  intro acc
  induction acc with
  | nil => intro k v _; rfl
  | cons p rest ih =>
    intro k v h
    obtain ⟨k0, v0⟩ := p
    unfold dictInsert
    rw [h (k0, v0) (List.mem_cons_self _ _)]
    simp only [Bool.false_eq_true, if_false, List.cons_append]
    rw [ih k v (fun q hq => h q (List.mem_cons_of_mem _ hq))]

/-- The item list of a nonempty list literal starts like the `repr` of its
first item. -/
theorem reprItems_head (v0 : PyLit) (l0 : List PyLit) :
    ∃ c t, reprItems (v0 :: l0) = c :: t ∧ isWsChar c = false ∧ c ≠ ']' ∧ c ≠ rbr := by
  obtain ⟨c, t, hv, hws, h1, h2, _⟩ := pyRepr_head v0
  cases l0 with
  | nil =>
    exact ⟨c, t, by rw [show reprItems [v0] = pyRepr v0 from rfl, hv], hws, h1, h2⟩
  | cons w ws =>
    refine ⟨c, t ++ ',' :: ' ' :: reprItems (w :: ws), ?_, hws, h1, h2⟩
    rw [show reprItems (v0 :: w :: ws) = pyRepr v0 ++ ',' :: ' ' :: reprItems (w :: ws)
      from rfl, hv, List.cons_append]

/-- The pair list of a nonempty dict literal starts like the `repr` of its
first key. -/
theorem reprPairs_head (k v0 : PyLit) (tl : List (PyLit × PyLit)) :
    ∃ c t, reprPairs ((k, v0) :: tl) = c :: t ∧ isWsChar c = false ∧ c ≠ ']' ∧ c ≠ rbr := by
  obtain ⟨c, t, hv, hws, h1, h2, _⟩ := pyRepr_head k
  cases tl with
  | nil =>
    refine ⟨c, t ++ ':' :: ' ' :: pyRepr v0, ?_, hws, h1, h2⟩
    rw [show reprPairs [(k, v0)] = pyRepr k ++ ':' :: ' ' :: pyRepr v0 from rfl, hv,
      List.cons_append]
  | cons kv2 tl2 =>
    refine ⟨c, t ++ ':' :: ' ' :: pyRepr v0 ++ ',' :: ' ' :: reprPairs (kv2 :: tl2),
      ?_, hws, h1, h2⟩
    rw [show reprPairs ((k, v0) :: kv2 :: tl2) =
      pyRepr k ++ ':' :: ' ' :: pyRepr v0 ++ ',' :: ' ' :: reprPairs (kv2 :: tl2) from rfl, hv]
    simp

/-- Whitespace skipping drops a single leading space. -/
theorem skipWs_space (x : List Char) : skipWs (' ' :: x) = skipWs x := rfl

/-- Dispatch of the value parser on a single quote. -/
theorem parseValueF_sq_dispatch (F : Nat) (t : List Char) :
    parseValueF (F + 1) (sqc :: t) =
      (match parseStringBody sqc t with
       | some (s2, rest2) => some (.str s2, rest2)
       | Option.none => Option.none) := rfl

/-- Dispatch of the value parser on a double quote. -/
theorem parseValueF_dq_dispatch (F : Nat) (t : List Char) :
    parseValueF (F + 1) (dqc :: t) =
      (match parseStringBody dqc t with
       | some (s2, rest2) => some (.str s2, rest2)
       | Option.none => Option.none) := rfl

/-- The string-body parser consumes a closing quote. -/
theorem parseStringBody_close (q : Char) (rest : List Char) :
    parseStringBody q (q :: rest) = some ([], rest) := by
  unfold parseStringBody
  rw [if_pos rfl]

/-- The string-body parser resolves a recognised escape sequence. -/
theorem parseStringBody_step_esc (q e r : Char) (cs2 body rest : List Char)
    (hbq : bsl ≠ q) (he : unescape e = some r)
    (hrec : parseStringBody q cs2 = some (body, rest)) :
    parseStringBody q (bsl :: e :: cs2) = some (r :: body, rest) := by
  unfold parseStringBody
  rw [if_neg hbq, if_pos rfl]
  simp only [he, hrec]

/-- The string-body parser passes an ordinary character through. -/
theorem parseStringBody_step_raw (q c : Char) (cs body rest : List Char)
    (h1 : c ≠ q) (h2 : c ≠ bsl) (h3 : c ≠ nlc)
    (hrec : parseStringBody q cs = some (body, rest)) :
    parseStringBody q (c :: cs) = some (c :: body, rest) := by
  unfold parseStringBody
  rw [if_neg h1, if_neg h2, if_neg h3]
  simp only [hrec]

/-- For either quote character, the string-body parser inverts the escape
function on every string: quotes, backslashes and whitespace characters
round-trip through their escape sequences. -/
theorem parseStringBody_escString (q : Char) (hbq : bsl ≠ q)
    (hq2 : unescape q = some q) :
    ∀ (s rest : List Char),
      parseStringBody q (escString q s ++ (q :: rest)) = some (s, rest) := by
  intro s
  induction s with
  | nil =>
    intro rest
    rw [show escString q [] = [] from rfl, List.nil_append]
    exact parseStringBody_close q rest
  | cons c0 cs ih =>
    intro rest
    rw [show escString q (c0 :: cs) = escChar q c0 ++ escString q cs from rfl,
      List.append_assoc]
    unfold escChar
    by_cases e1 : c0 = bsl
    · rw [if_pos e1, e1]
      exact parseStringBody_step_esc q bsl bsl _ cs rest hbq rfl (ih rest)
    · rw [if_neg e1]
      by_cases e2 : c0 = q
      · rw [if_pos e2, e2]
        exact parseStringBody_step_esc q q q _ cs rest hbq hq2 (ih rest)
      · rw [if_neg e2]
        by_cases e3 : c0 = nlc
        · rw [if_pos e3, e3]
          exact parseStringBody_step_esc q 'n' nlc _ cs rest hbq rfl (ih rest)
        · rw [if_neg e3]
          by_cases e4 : c0 = tbc
          · rw [if_pos e4, e4]
            exact parseStringBody_step_esc q 't' tbc _ cs rest hbq rfl (ih rest)
          · rw [if_neg e4]
            by_cases e5 : c0 = crc
            · rw [if_pos e5, e5]
              exact parseStringBody_step_esc q 'r' crc _ cs rest hbq rfl (ih rest)
            · rw [if_neg e5]
              exact parseStringBody_step_raw q c0 _ cs rest e2 e1 e3 (ih rest)

/-- The value parser reads back the `repr` of any string, whichever quote
`repr` picks and whatever escapes the body needs. -/
theorem parseValueF_strAny (F : Nat) (s rest : List Char) :
    parseValueF (F + 1) (pyRepr (.str s) ++ rest) = some (.str s, rest) := by
  rw [show pyRepr (.str s) = strRepr s from rfl]
  rw [show strRepr s = strQuote s :: escString (strQuote s) s ++ [strQuote s]
    from rfl]
  rw [show (strQuote s :: escString (strQuote s) s ++ [strQuote s]) ++ rest =
    strQuote s :: (escString (strQuote s) s ++ (strQuote s :: rest)) from by simp]
  rcases strQuote_cases s with hq | hq <;> rw [hq]
  · rw [parseValueF_sq_dispatch, parseStringBody_escString sqc (by decide) rfl s rest]
  · rw [parseValueF_dq_dispatch, parseStringBody_escString dqc (by decide) rfl s rest]

/-- Dispatch of the value parser on a digit (given by its value). -/
theorem parseValueF_digit_dispatch (F : Nat) (k : Nat) (hk : k < 10) (t : List Char) :
    parseValueF (F + 1) (digitChar10 k :: t) =
      (match parseIntLit (digitChar10 k :: t) with
       | some (n, rest2) => some (.int n, rest2)
       | Option.none => Option.none) := by
  interval_cases k <;> rfl

/-- Dispatch of the value parser on a minus sign. -/
theorem parseValueF_minus_dispatch (F : Nat) (t : List Char) :
    parseValueF (F + 1) ('-' :: t) =
      (match parseIntLit ('-' :: t) with
       | some (n, rest2) => some (.int n, rest2)
       | Option.none => Option.none) := rfl

/-- The head digit of `natRepr` as a digit value. -/
theorem natRepr_head_digitChar (n : Nat) :
    ∃ k ds, k < 10 ∧ natRepr n = digitChar10 k :: ds := by
  by_cases h : n = 0
  · subst h
    exact ⟨0, [], by norm_num, rfl⟩
  · have hne : Nat.digits 10 n ≠ [] := (@Nat.digits_ne_nil_iff_ne_zero 10 n).mpr h
    have hlt : (Nat.digits 10 n).getLast hne < 10 :=
      Nat.digits_lt_base (by norm_num) (List.getLast_mem hne)
    obtain ⟨d, ds, hds⟩ : ∃ d ds, natRepr n = d :: ds := by
      cases hnr : natRepr n with
      | nil => exact absurd hnr (natRepr_ne_nil n)
      | cons d ds => exact ⟨d, ds, rfl⟩
    refine ⟨(Nat.digits 10 n).getLast hne, ds, hlt, ?_⟩
    rw [hds]
    have hh : (natRepr n).head? = some d := by rw [hds]; rfl
    rw [natRepr_eq n h, List.head?_reverse, List.getLast?_map,
      List.getLast?_eq_getLast _ hne, Option.map_some'] at hh
    rw [← Option.some.inj hh]

/-- The value parser reads back integer `repr`s. -/
theorem parseValueF_intLit (F : Nat) (n : Int) (rest : List Char)
    (hr : restOk rest = true) :
    parseValueF (F + 1) (pyRepr (.int n) ++ rest) = some (.int n, rest) := by
  rw [show pyRepr (.int n) = intRepr n from rfl]
  by_cases hn : n < 0
  · have he : intRepr n = '-' :: natRepr n.natAbs := by
      unfold intRepr
      rw [if_pos hn]
    rw [he, List.cons_append, parseValueF_minus_dispatch]
    rw [← List.cons_append, ← he, parseIntLit_intRepr n rest hr]
  · obtain ⟨k, ds, hk, hds⟩ := natRepr_head_digitChar n.natAbs
    have he : intRepr n = digitChar10 k :: ds := by
      unfold intRepr
      rw [if_neg hn, hds]
    rw [he, List.cons_append, parseValueF_digit_dispatch F k hk]
    rw [← List.cons_append, ← he, parseIntLit_intRepr n rest hr]

/-- The value parser reads back `None`. -/
theorem parseValueF_none (F : Nat) (rest : List Char) :
    parseValueF (F + 1) (pyRepr PyLit.none ++ rest) = some (PyLit.none, rest) := rfl

/-- The value parser reads back `True`. -/
theorem parseValueF_true (F : Nat) (rest : List Char) :
    parseValueF (F + 1) (pyRepr (.bool true) ++ rest) = some (.bool true, rest) := rfl

/-- The value parser reads back `False`. -/
theorem parseValueF_false (F : Nat) (rest : List Char) :
    parseValueF (F + 1) (pyRepr (.bool false) ++ rest) = some (.bool false, rest) := rfl

/-- Dispatch of the value parser on an opening bracket. -/
theorem parseValueF_lbracket_dispatch (F : Nat) (t : List Char) :
    parseValueF (F + 1) ('[' :: t) =
      (match skipWs t with
       | c2 :: rest2 =>
         if c2 = ']' then some (.list [], rest2) else parseListItems F [] (c2 :: rest2)
       | [] => Option.none) := rfl

/-- Dispatch of the value parser on an opening brace. -/
theorem parseValueF_lbrace_dispatch (F : Nat) (t : List Char) :
    parseValueF (F + 1) (lbr :: t) =
      (match skipWs t with
       | c2 :: rest2 =>
         if c2 = rbr then some (.dict [], rest2) else parseDictItems F [] (c2 :: rest2)
       | [] => Option.none) := rfl

/-- Master round trip of the literal parser on safe `repr`s: values parse
back exactly, and the item loops of dict and list literals parse their
comma-separated bodies back, accumulating in order. -/
theorem parse_repr_master : ∀ fuel : Nat,
    (∀ (v : PyLit) (rest : List Char), safeVal v = true → (pyRepr v).length ≤ fuel →
      restOk rest = true → parseValueF fuel (pyRepr v ++ rest) = some (v, rest)) ∧
    (∀ (kvs acc : List (PyLit × PyLit)) (rest : List Char),
      safePairs kvs = true → keysNodupB kvs = true →
      (∀ p ∈ acc, keysFresh p.1 kvs = true) → kvs ≠ [] →
      (reprPairs kvs).length < fuel →
      parseDictItems fuel acc (reprPairs kvs ++ rbr :: rest) =
        some (.dict (acc ++ kvs), rest)) ∧
    (∀ (l : List PyLit) (acc : List PyLit) (rest : List Char),
      safeItems l = true → l ≠ [] → (reprItems l).length < fuel →
      parseListItems fuel acc (reprItems l ++ ']' :: rest) =
        some (.list (acc ++ l), rest)) := by
  intro fuel
  induction fuel with
  | zero =>
    refine ⟨?_, ?_, ?_⟩
    · intro v rest _ h _
      exact absurd h (by have := pyRepr_length_pos v; omega)
    · intro kvs acc rest _ _ _ _ h
      exact absurd h (by omega)
    · intro l acc rest _ _ h
      exact absurd h (by omega)
  | succ F ih =>
    obtain ⟨ihv, ihd, ihl⟩ := ih
    refine ⟨?_, ?_, ?_⟩
    · -- value part
      intro v rest hsafe hlen hrest
      cases v with
      | none => exact parseValueF_none F rest
      | bool b =>
        cases b with
        | true => exact parseValueF_true F rest
        | false => exact parseValueF_false F rest
      | int n => exact parseValueF_intLit F n rest hrest
      | str s => exact parseValueF_strAny F s rest
      | list l =>
        cases l with
        | nil =>
          rw [show pyRepr (.list []) ++ rest = '[' :: (']' :: rest) from rfl]
          rw [parseValueF_lbracket_dispatch F (']' :: rest)]
          rw [skipWs_cons_not ']' rest (by decide)]
          simp
        | cons v0 l0 =>
          have hsafe' : safeItems (v0 :: l0) = true := hsafe
          have hlen' : (reprItems (v0 :: l0)).length < F := by
            have he : pyRepr (.list (v0 :: l0)) =
                '[' :: reprItems (v0 :: l0) ++ [']'] := rfl
            rw [he] at hlen
            simp only [List.length_cons, List.length_append,
              List.length_singleton] at hlen
            omega
          rw [show pyRepr (.list (v0 :: l0)) ++ rest =
            '[' :: (reprItems (v0 :: l0) ++ ']' :: rest) from by
              rw [show pyRepr (.list (v0 :: l0)) =
                '[' :: reprItems (v0 :: l0) ++ [']'] from rfl]
              simp]
          rw [parseValueF_lbracket_dispatch F _]
          obtain ⟨c0, t0, hitems, hws0, hne1, _⟩ := reprItems_head v0 l0
          rw [hitems, List.cons_append, skipWs_cons_not c0 _ hws0]
          simp only [hne1, if_false, reduceIte]
          rw [← List.cons_append, ← hitems]
          rw [ihl (v0 :: l0) [] rest hsafe' (by simp) hlen']
          simp
      | dict kvs =>
        have hsafe2 : safePairs kvs = true ∧ keysNodupB kvs = true := by
          have he : safeVal (.dict kvs) = (safePairs kvs && keysNodupB kvs) := rfl
          rw [he, Bool.and_eq_true] at hsafe
          exact hsafe
        cases kvs with
        | nil =>
          rw [show pyRepr (.dict []) ++ rest = lbr :: (rbr :: rest) from rfl]
          rw [parseValueF_lbrace_dispatch F (rbr :: rest)]
          rw [skipWs_cons_not rbr rest (by decide)]
          simp
        | cons kv tl =>
          obtain ⟨k, v0⟩ := kv
          have hlen' : (reprPairs ((k, v0) :: tl)).length < F := by
            have he : pyRepr (.dict ((k, v0) :: tl)) =
                lbr :: reprPairs ((k, v0) :: tl) ++ [rbr] := rfl
            rw [he] at hlen
            simp only [List.length_cons, List.length_append,
              List.length_singleton] at hlen
            omega
          rw [show pyRepr (.dict ((k, v0) :: tl)) ++ rest =
            lbr :: (reprPairs ((k, v0) :: tl) ++ rbr :: rest) from by
              rw [show pyRepr (.dict ((k, v0) :: tl)) =
                lbr :: reprPairs ((k, v0) :: tl) ++ [rbr] from rfl]
              simp]
          rw [parseValueF_lbrace_dispatch F _]
          obtain ⟨c0, t0, hpairs, hws0, _, hne2⟩ := reprPairs_head k v0 tl
          rw [hpairs, List.cons_append, skipWs_cons_not c0 _ hws0]
          simp only [hne2, if_false, reduceIte]
          rw [← List.cons_append, ← hpairs]
          rw [ihd ((k, v0) :: tl) [] rest hsafe2.1 hsafe2.2
            (by intro p hp; simp at hp) (by simp) hlen']
          simp
    · -- dict items part
      intro kvs acc rest hsafe hnodup hfresh hne hlen
      obtain ⟨⟨k, v⟩, tl, rfl⟩ : ∃ kv tl, kvs = kv :: tl := by
        cases kvs with
        | nil => exact absurd rfl hne
        | cons kv tl => exact ⟨kv, tl, rfl⟩
      obtain ⟨ks, rfl⟩ : ∃ ks, k = .str ks := by
        cases k with
        | str ks => exact ⟨ks, rfl⟩
        | none => exact absurd hsafe (by intro h; exact Bool.noConfusion (show (false : Bool) = true from h))
        | bool b => exact absurd hsafe (by intro h; exact Bool.noConfusion (show (false : Bool) = true from h))
        | int n => exact absurd hsafe (by intro h; exact Bool.noConfusion (show (false : Bool) = true from h))
        | list l2 => exact absurd hsafe (by intro h; exact Bool.noConfusion (show (false : Bool) = true from h))
        | dict kvs2 => exact absurd hsafe (by intro h; exact Bool.noConfusion (show (false : Bool) = true from h))
      have hs' : valStrOk ks = true ∧ safeVal v = true ∧ safePairs tl = true := by
        have heq : safePairs ((PyLit.str ks, v) :: tl) =
            (valStrOk ks && safeVal v && safePairs tl) := rfl
        rw [heq, Bool.and_eq_true, Bool.and_eq_true] at hsafe
        exact ⟨hsafe.1.1, hsafe.1.2, hsafe.2⟩
      have hnod' : keysFresh (.str ks) tl = true ∧ keysNodupB tl = true := by
        have heq : keysNodupB ((PyLit.str ks, v) :: tl) =
            (keysFresh (.str ks) tl && keysNodupB tl) := rfl
        rw [heq, Bool.and_eq_true] at hnodup
        exact hnodup
      have e7 : dictInsert acc (PyLit.str ks) v = acc ++ [(PyLit.str ks, v)] := by
        apply dictInsert_append
        intro p hp
        have hf := hfresh p hp
        rw [show keysFresh p.1 ((PyLit.str ks, v) :: tl) =
          (!(PyLit.beq p.1 (PyLit.str ks)) && keysFresh p.1 tl) from rfl,
          Bool.and_eq_true] at hf
        simpa using hf.1
      cases tl with
      | nil =>
        have hinput : reprPairs [(PyLit.str ks, v)] ++ rbr :: rest =
            pyRepr (PyLit.str ks) ++ (':' :: ' ' :: (pyRepr v ++ rbr :: rest)) := by
          rw [show reprPairs [(PyLit.str ks, v)] =
            pyRepr (PyLit.str ks) ++ ':' :: ' ' :: pyRepr v from rfl]
          simp
        have hlens : (pyRepr (PyLit.str ks)).length ≤ F ∧ (pyRepr v).length ≤ F := by
          rw [show reprPairs [(PyLit.str ks, v)] =
            pyRepr (PyLit.str ks) ++ ':' :: ' ' :: pyRepr v from rfl] at hlen
          simp only [List.length_append, List.length_cons] at hlen
          omega
        have e1 : skipWs (reprPairs [(PyLit.str ks, v)] ++ rbr :: rest) =
            pyRepr (PyLit.str ks) ++ (':' :: ' ' :: (pyRepr v ++ rbr :: rest)) := by
          rw [hinput]
          exact skipWs_pyRepr (PyLit.str ks) _
        have e2 : parseValueF F
            (pyRepr (PyLit.str ks) ++ (':' :: ' ' :: (pyRepr v ++ rbr :: rest))) =
            some (.str ks, ':' :: ' ' :: (pyRepr v ++ rbr :: rest)) :=
          ihv (.str ks) _ hs'.1 hlens.1 rfl
        have e3 : skipWs (':' :: ' ' :: (pyRepr v ++ rbr :: rest)) =
            ':' :: ' ' :: (pyRepr v ++ rbr :: rest) :=
          skipWs_cons_not _ _ (by decide)
        have e4 : skipWs (' ' :: (pyRepr v ++ rbr :: rest)) =
            pyRepr v ++ rbr :: rest := by
          rw [skipWs_space]
          exact skipWs_pyRepr v _
        have e5 : parseValueF F (pyRepr v ++ rbr :: rest) = some (v, rbr :: rest) :=
          ihv v _ hs'.2.1 hlens.2 rfl
        have e6 : skipWs (rbr :: rest) = rbr :: rest :=
          skipWs_cons_not _ _ (by decide)
        conv_lhs => unfold parseDictItems
        simp [e1, e2, e3, e4, e5, e6, e7]
      | cons kv2 tl2 =>
        obtain ⟨k2, v2⟩ := kv2
        have hinput : reprPairs ((PyLit.str ks, v) :: (k2, v2) :: tl2) ++ rbr :: rest =
            pyRepr (PyLit.str ks) ++ (':' :: ' ' :: (pyRepr v ++ ',' :: ' ' ::
              (reprPairs ((k2, v2) :: tl2) ++ rbr :: rest))) := by
          rw [show reprPairs ((PyLit.str ks, v) :: (k2, v2) :: tl2) =
            pyRepr (PyLit.str ks) ++ ':' :: ' ' :: pyRepr v ++ ',' :: ' ' ::
              reprPairs ((k2, v2) :: tl2) from rfl]
          simp
        have hlens : (pyRepr (PyLit.str ks)).length ≤ F ∧ (pyRepr v).length ≤ F ∧
            (reprPairs ((k2, v2) :: tl2)).length < F := by
          rw [show reprPairs ((PyLit.str ks, v) :: (k2, v2) :: tl2) =
            pyRepr (PyLit.str ks) ++ ':' :: ' ' :: pyRepr v ++ ',' :: ' ' ::
              reprPairs ((k2, v2) :: tl2) from rfl] at hlen
          simp only [List.length_append, List.length_cons] at hlen
          omega
        have e1 : skipWs (reprPairs ((PyLit.str ks, v) :: (k2, v2) :: tl2) ++ rbr :: rest) =
            pyRepr (PyLit.str ks) ++ (':' :: ' ' :: (pyRepr v ++ ',' :: ' ' ::
              (reprPairs ((k2, v2) :: tl2) ++ rbr :: rest))) := by
          rw [hinput]
          exact skipWs_pyRepr (PyLit.str ks) _
        have e2 : parseValueF F (pyRepr (PyLit.str ks) ++ (':' :: ' ' ::
            (pyRepr v ++ ',' :: ' ' :: (reprPairs ((k2, v2) :: tl2) ++ rbr :: rest)))) =
            some (.str ks, ':' :: ' ' :: (pyRepr v ++ ',' :: ' ' ::
              (reprPairs ((k2, v2) :: tl2) ++ rbr :: rest))) :=
          ihv (.str ks) _ hs'.1 hlens.1 rfl
        have e3 : skipWs (':' :: ' ' :: (pyRepr v ++ ',' :: ' ' ::
            (reprPairs ((k2, v2) :: tl2) ++ rbr :: rest))) =
            ':' :: ' ' :: (pyRepr v ++ ',' :: ' ' ::
              (reprPairs ((k2, v2) :: tl2) ++ rbr :: rest)) :=
          skipWs_cons_not _ _ (by decide)
        have e4 : skipWs (' ' :: (pyRepr v ++ ',' :: ' ' ::
            (reprPairs ((k2, v2) :: tl2) ++ rbr :: rest))) =
            pyRepr v ++ ',' :: ' ' :: (reprPairs ((k2, v2) :: tl2) ++ rbr :: rest) := by
          rw [skipWs_space]
          exact skipWs_pyRepr v _
        have e5 : parseValueF F (pyRepr v ++ ',' :: ' ' ::
            (reprPairs ((k2, v2) :: tl2) ++ rbr :: rest)) =
            some (v, ',' :: ' ' :: (reprPairs ((k2, v2) :: tl2) ++ rbr :: rest)) :=
          ihv v _ hs'.2.1 hlens.2.1 rfl
        have e6 : skipWs (',' :: ' ' :: (reprPairs ((k2, v2) :: tl2) ++ rbr :: rest)) =
            ',' :: ' ' :: (reprPairs ((k2, v2) :: tl2) ++ rbr :: rest) :=
          skipWs_cons_not _ _ (by decide)
        obtain ⟨c0, t0, hp0, hws0, _, hne0⟩ := reprPairs_head k2 v2 tl2
        have e8 : skipWs (' ' :: (reprPairs ((k2, v2) :: tl2) ++ rbr :: rest)) =
            c0 :: (t0 ++ rbr :: rest) := by
          rw [skipWs_space, hp0, List.cons_append, skipWs_cons_not c0 _ hws0]
        have hfresh2 : ∀ p ∈ acc ++ [(PyLit.str ks, v)],
            keysFresh p.1 ((k2, v2) :: tl2) = true := by
          intro p hp
          rcases List.mem_append.mp hp with h | h
          · have hf := hfresh p h
            rw [show keysFresh p.1 ((PyLit.str ks, v) :: (k2, v2) :: tl2) =
              (!(PyLit.beq p.1 (PyLit.str ks)) && keysFresh p.1 ((k2, v2) :: tl2))
              from rfl, Bool.and_eq_true] at hf
            exact hf.2
          · simp only [List.mem_singleton] at h
            subst h
            exact hnod'.1
        have e9 : parseDictItems F (acc ++ [(PyLit.str ks, v)])
            (reprPairs ((k2, v2) :: tl2) ++ rbr :: rest) =
            some (.dict ((acc ++ [(PyLit.str ks, v)]) ++ ((k2, v2) :: tl2)), rest) :=
          ihd ((k2, v2) :: tl2) (acc ++ [(PyLit.str ks, v)]) rest hs'.2.2 hnod'.2
            hfresh2 (by simp) hlens.2.2
        have e10 : parseDictItems F (acc ++ [(PyLit.str ks, v)]) (c0 :: (t0 ++ rbr :: rest)) =
            some (.dict ((acc ++ [(PyLit.str ks, v)]) ++ ((k2, v2) :: tl2)), rest) := by
          rw [show c0 :: (t0 ++ rbr :: rest) =
            reprPairs ((k2, v2) :: tl2) ++ rbr :: rest from by rw [hp0]; simp]
          exact e9
        conv_lhs => unfold parseDictItems
        simp [e1, e2, e3, e4, e5, e6, e7, e8, e10, hne0, show ¬(',' = rbr) from by decide]
    · -- list items part
      intro l acc rest hsafe hne hlen
      obtain ⟨v, tl, rfl⟩ : ∃ v tl, l = v :: tl := by
        cases l with
        | nil => exact absurd rfl hne
        | cons v tl => exact ⟨v, tl, rfl⟩
      have hs' : safeVal v = true ∧ safeItems tl = true := by
        have heq : safeItems (v :: tl) = (safeVal v && safeItems tl) := rfl
        rw [heq, Bool.and_eq_true] at hsafe
        exact hsafe
      cases tl with
      | nil =>
        have hlens : (pyRepr v).length ≤ F := by
          rw [show reprItems [v] = pyRepr v from rfl] at hlen
          omega
        have e1 : skipWs (reprItems [v] ++ ']' :: rest) = pyRepr v ++ ']' :: rest := by
          rw [show reprItems [v] = pyRepr v from rfl]
          exact skipWs_pyRepr v _
        have e2 : parseValueF F (pyRepr v ++ ']' :: rest) = some (v, ']' :: rest) :=
          ihv v _ hs'.1 hlens rfl
        have e3 : skipWs (']' :: rest) = ']' :: rest :=
          skipWs_cons_not _ _ (by decide)
        conv_lhs => unfold parseListItems
        simp [e1, e2, e3]
      | cons w ws =>
        have hinput : reprItems (v :: w :: ws) ++ ']' :: rest =
            pyRepr v ++ (',' :: ' ' :: (reprItems (w :: ws) ++ ']' :: rest)) := by
          rw [show reprItems (v :: w :: ws) =
            pyRepr v ++ ',' :: ' ' :: reprItems (w :: ws) from rfl]
          simp
        have hlens : (pyRepr v).length ≤ F ∧ (reprItems (w :: ws)).length < F := by
          rw [show reprItems (v :: w :: ws) =
            pyRepr v ++ ',' :: ' ' :: reprItems (w :: ws) from rfl] at hlen
          simp only [List.length_append, List.length_cons] at hlen
          omega
        have e1 : skipWs (reprItems (v :: w :: ws) ++ ']' :: rest) =
            pyRepr v ++ (',' :: ' ' :: (reprItems (w :: ws) ++ ']' :: rest)) := by
          rw [hinput]
          exact skipWs_pyRepr v _
        have e2 : parseValueF F
            (pyRepr v ++ (',' :: ' ' :: (reprItems (w :: ws) ++ ']' :: rest))) =
            some (v, ',' :: ' ' :: (reprItems (w :: ws) ++ ']' :: rest)) :=
          ihv v _ hs'.1 hlens.1 rfl
        have e3 : skipWs (',' :: ' ' :: (reprItems (w :: ws) ++ ']' :: rest)) =
            ',' :: ' ' :: (reprItems (w :: ws) ++ ']' :: rest) :=
          skipWs_cons_not _ _ (by decide)
        obtain ⟨c0, t0, hp0, hws0, hne0, _⟩ := reprItems_head w ws
        have e4 : skipWs (' ' :: (reprItems (w :: ws) ++ ']' :: rest)) =
            c0 :: (t0 ++ ']' :: rest) := by
          rw [skipWs_space, hp0, List.cons_append, skipWs_cons_not c0 _ hws0]
        have e5 : parseListItems F (acc ++ [v]) (c0 :: (t0 ++ ']' :: rest)) =
            some (.list ((acc ++ [v]) ++ (w :: ws)), rest) := by
          rw [show c0 :: (t0 ++ ']' :: rest) =
            reprItems (w :: ws) ++ ']' :: rest from by rw [hp0]; simp]
          exact ihl (w :: ws) (acc ++ [v]) rest hs'.2 (by simp) hlens.2
        conv_lhs => unfold parseListItems
        simp [e1, e2, e3, e4, e5, hne0, show ¬(',' = ']') from by decide]

/-- The embedded `ast.literal_eval` reads back the `repr` of every safe
value. -/
theorem literal_eval_pyRepr (v : PyLit) (h : safeVal v = true) :
    literal_eval (pyRepr v) = .ok v := by
  unfold literal_eval
  obtain ⟨c, t, hv, hws, _, _, _⟩ := pyRepr_head v
  have hskip : skipWs (pyRepr v) = pyRepr v := by
    rw [hv]
    exact skipWs_cons_not c t hws
  rw [hskip]
  have hm := (parse_repr_master ((pyRepr v).length + 1)).1 v [] h (by omega) rfl
  rw [show pyRepr v ++ [] = pyRepr v from by simp] at hm
  rw [hm]
  simp [skipWs]

/-- Safety of the two-key action dicts built by the encoder. -/
theorem safeVal_pair_dict (ka : List Char) (va : PyLit) (kb : List Char) (vb : PyLit)
    (h1 : valStrOk ka = true) (h2 : safeVal va = true) (h3 : valStrOk kb = true)
    (h4 : safeVal vb = true) (h5 : PyLit.beq (.str ka) (.str kb) = false) :
    safeVal (PyLit.dict [(.str ka, va), (.str kb, vb)]) = true := by
  have he : safeVal (PyLit.dict [(.str ka, va), (.str kb, vb)]) =
      (safePairs [(.str ka, va), (.str kb, vb)] &&
        keysNodupB [(.str ka, va), (.str kb, vb)]) := rfl
  have hp : safePairs [(.str ka, va), (.str kb, vb)] =
      ((valStrOk ka && safeVal va) && ((valStrOk kb && safeVal vb) && true)) := rfl
  have hn : keysNodupB [(.str ka, va), (.str kb, vb)] =
      (((!(PyLit.beq (.str ka) (.str kb))) && true) && (true && true)) := rfl
  rw [he, hp, hn, h1, h2, h3, h4, h5]
  rfl

/-- The encoder output for a non-final call is the delimited `repr` of the
two-key action dict. -/
theorem encode_invoke_decomp (name : List Char) (kvs : List (PyLit × PyLit))
    (hsafe : safeStr name = true) (hfa : isFinalAnswer (.str name) = false) :
    encode_as_str (.str name) (.dict kvs) =
      openTag ++ (pyRepr (PyLit.dict [(.str actionKey, .str name),
        (.str inputKey, .dict kvs)]) ++ (closeTag ++ [])) := by
  unfold encode_as_str
  rw [hfa]
  simp only [Bool.false_eq_true, if_false]
  rw [show pyStr (.str name) = name from rfl,
    show pyStr (.dict kvs) = pyRepr (.dict kvs) from rfl]
  rw [show pyRepr (PyLit.dict [(.str actionKey, .str name), (.str inputKey, .dict kvs)]) =
    lbr :: reprPairs [(.str actionKey, .str name), (.str inputKey, .dict kvs)] ++ [rbr]
    from rfl]
  rw [show reprPairs [(PyLit.str actionKey, PyLit.str name),
      (PyLit.str inputKey, PyLit.dict kvs)] =
    pyRepr (PyLit.str actionKey) ++ ':' :: ' ' :: pyRepr (PyLit.str name) ++ ',' :: ' ' ::
      (pyRepr (PyLit.str inputKey) ++ ':' :: ' ' :: pyRepr (PyLit.dict kvs)) from rfl]
  rw [show pyRepr (PyLit.str actionKey) = sqc :: actionKey ++ [sqc] from rfl]
  rw [show pyRepr (PyLit.str inputKey) = sqc :: inputKey ++ [sqc] from rfl]
  rw [show pyRepr (PyLit.str name) = sqc :: name ++ [sqc] from strRepr_safe name hsafe]
  simp [openTag, closeTag, actionKey, inputKey, show lbr = '\x7b' from rfl,
    show rbr = '\x7d' from rfl, show sqc = '\x27' from rfl]

/-- The encoder output for the `Final Answer` special case is the
delimited `repr` of the two-key action dict with a quoted result. -/
theorem encode_finish_decomp (rs : List Char) (hs : safeStr rs = true) :
    encode_as_str (.str faChars) (.str rs) =
      openTag ++ (pyRepr (PyLit.dict [(.str actionKey, .str faChars),
        (.str inputKey, .str rs)]) ++ (closeTag ++ [])) := by
  unfold encode_as_str
  rw [show isFinalAnswer (.str faChars) = true from rfl]
  simp only [if_true]
  rw [show pyStr (.str rs) = rs from rfl]
  rw [show pyRepr (PyLit.dict [(.str actionKey, .str faChars), (.str inputKey, .str rs)]) =
    lbr :: reprPairs [(.str actionKey, .str faChars), (.str inputKey, .str rs)] ++ [rbr]
    from rfl]
  rw [show reprPairs [(PyLit.str actionKey, PyLit.str faChars),
      (PyLit.str inputKey, PyLit.str rs)] =
    pyRepr (PyLit.str actionKey) ++ ':' :: ' ' :: pyRepr (PyLit.str faChars) ++ ',' :: ' ' ::
      (pyRepr (PyLit.str inputKey) ++ ':' :: ' ' :: pyRepr (PyLit.str rs)) from rfl]
  rw [show pyRepr (PyLit.str actionKey) = sqc :: actionKey ++ [sqc] from rfl]
  rw [show pyRepr (PyLit.str inputKey) = sqc :: inputKey ++ [sqc] from rfl]
  rw [show pyRepr (PyLit.str faChars) = sqc :: faChars ++ [sqc] from rfl]
  rw [show pyRepr (PyLit.str rs) = sqc :: rs ++ [sqc] from strRepr_safe rs hs]
  simp [openTag, closeTag, actionKey, inputKey, faChars, show lbr = '\x7b' from rfl,
    show rbr = '\x7d' from rfl, show sqc = '\x27' from rfl]

/-- Claim C1 as amended: the round trip holds for an `Invoke` whose name is
a non-empty inert string other than `"Final Answer"` (the name is
interpolated raw into the quoted template, so a quote, backslash or `<` in
the name genuinely breaks the literal or the capture) and whose arguments
are any mapping in the embedded literal universe whose strings merely avoid
`<` — argument strings may contain quotes, backslashes, tabs and newlines,
which round-trip through the `repr` escaping — with distinct keys; a
`Finish` encoded through the `"Final Answer"` name decodes to an
`AgentFinish` whose result is the *string form* of the original result
(interpolated raw into quotes, like the name), hence equals the original
exactly when the result is an inert string.  The embedded literal universe
has no floating-point constructor, so float arguments — which the source
also round-trips — lie outside the scope of this statement. -/
theorem claim_C1_roundtrip_amended :
    (∀ (name : List Char) (kvs : List (PyLit × PyLit)),
      safeStr name = true → name ≠ [] → name ≠ faChars →
      safeVal (.dict kvs) = true →
      decode (encode_as_str (.str name) (.dict kvs)) =
        .ok (some (.functionCall (.str name) (.dict kvs)))) ∧
    (∀ rs : List Char, safeStr rs = true →
      decode (encode_as_str (.str faChars) (.str rs)) =
        .ok (some (.agentFinish (.str rs)))) := by
  constructor
  · intro name kvs hsafe _ hne hkvs
    have hfa : isFinalAnswer (.str name) = false := by
      have he : isFinalAnswer (.str name) = (name == faChars) := rfl
      rw [he]
      exact beq_eq_false_iff_ne.mpr hne
    have hd0 : safeVal (PyLit.dict [(.str actionKey, .str name),
        (.str inputKey, .dict kvs)]) = true :=
      safeVal_pair_dict actionKey (.str name) inputKey (.dict kvs)
        (by decide) (safeStr_imp_valStrOk name hsafe) (by decide) hkvs (by decide)
    have hblob : (pyRepr (PyLit.dict [(.str actionKey, .str name),
        (.str inputKey, .dict kvs)])).all (fun c => c != '<') = true :=
      List.all_eq_true.mpr
        (pyRepr_no_lt _ _ (Nat.le_refl _) hd0)
    have harg : (if (PyLit.dict kvs).truthy then PyLit.dict kvs else .dict []) =
        .dict kvs := by
      cases kvs with
      | nil => rfl
      | cons a b => rfl
    have hfind := findBlob_decomp (pyRepr (PyLit.dict [(.str actionKey, .str name),
      (.str inputKey, .dict kvs)])) [] hblob
    have hlit := literal_eval_pyRepr (PyLit.dict [(.str actionKey, .str name),
      (.str inputKey, .dict kvs)]) hd0
    have hg1 : getItem (PyLit.dict [(.str actionKey, .str name),
      (.str inputKey, .dict kvs)]) actionKey = .ok (.str name) := rfl
    have hg2 : getItem (PyLit.dict [(.str actionKey, .str name),
      (.str inputKey, .dict kvs)]) inputKey = .ok (.dict kvs) := rfl
    rw [encode_invoke_decomp name kvs hsafe hfa]
    simp only [decode, decodeData, hfind, hlit, hg1, hg2, hfa, Bool.false_eq_true,
      if_false, harg]
  · intro rs hs
    have hdFA : safeVal (PyLit.dict [(.str actionKey, .str faChars),
        (.str inputKey, .str rs)]) = true :=
      safeVal_pair_dict actionKey (.str faChars) inputKey (.str rs)
        (by decide) (by decide) (by decide) (safeStr_imp_valStrOk rs hs) (by decide)
    have hblob : (pyRepr (PyLit.dict [(.str actionKey, .str faChars),
        (.str inputKey, .str rs)])).all (fun c => c != '<') = true :=
      List.all_eq_true.mpr
        (pyRepr_no_lt _ _ (Nat.le_refl _) hdFA)
    have hfind := findBlob_decomp (pyRepr (PyLit.dict [(.str actionKey, .str faChars),
      (.str inputKey, .str rs)])) [] hblob
    have hlit := literal_eval_pyRepr (PyLit.dict [(.str actionKey, .str faChars),
      (.str inputKey, .str rs)]) hdFA
    have hg1 : getItem (PyLit.dict [(.str actionKey, .str faChars),
      (.str inputKey, .str rs)]) actionKey = .ok (.str faChars) := rfl
    have hg2 : getItem (PyLit.dict [(.str actionKey, .str faChars),
      (.str inputKey, .str rs)]) inputKey = .ok (.str rs) := rfl
    rw [encode_finish_decomp rs hs]
    simp only [decode, decodeData, hfind, hlit, hg1, hg2,
      show isFinalAnswer (.str faChars) = true from rfl, if_true]

/-- Counterexample to claim C1 as stated: a `Finish` carrying the integer
`42` decodes back to an `AgentFinish` carrying the *string* `"42"` (the
encoder stringifies and quotes the result), not the original integer. -/
theorem claim_C1_counterexample :
    decode (encode_as_str (.str faChars) (.int 42)) =
      .ok (some (.agentFinish (.str ['4', '2']))) ∧
    decode (encode_as_str (.str faChars) (.int 42)) ≠
      .ok (some (.agentFinish (.int 42))) := by
  refine ⟨rfl, ?_⟩
  intro h
  rw [show decode (encode_as_str (.str faChars) (.int 42)) =
    .ok (some (.agentFinish (.str ['4', '2']))) from rfl] at h
  simp at h

/-- Witness for the amended C1 at an argument mapping whose string values
contain a single quote, a backslash and a tab, and at a string result. -/
theorem claim_C1_witness :
    decode (encode_as_str (.str ("search".data))
        (.dict [(.str ("query".data), .str ("it\x27s".data)),
                (.str ("path".data), .str ("a\\b\tc".data))])) =
      .ok (some (.functionCall (.str ("search".data))
        (.dict [(.str ("query".data), .str ("it\x27s".data)),
                (.str ("path".data), .str ("a\\b\tc".data))]))) ∧
    decode (encode_as_str (.str faChars) (.str ("42".data))) =
      .ok (some (.agentFinish (.str ("42".data)))) := by
  constructor
  · exact claim_C1_roundtrip_amended.1 ("search".data)
      [(.str ("query".data), .str ("it\x27s".data)),
       (.str ("path".data), .str ("a\\b\tc".data))]
      (by decide) (by decide) (by decide) (by decide)
  · exact claim_C1_roundtrip_amended.2 ("42".data) (by decide)
